import Mathlib

/-!
Shallow embedding of the stimer-backend room core (`src/roomStore.ts`, plus the
state-mutating parts of the `src/socket.ts` handlers) and proofs of the spec
claims about it.

Conventions of the embedding:
* JavaScript `Map` objects become functions into `Option` (`mset` / `mdel`
  below are `Map.set` / `Map.delete`).
* Timestamps (`Date.now()`) are passed explicitly as an `Int` argument `now`
  (milliseconds); `Math.floor(x / 1000)` on a possibly negative difference is
  `Int.fdiv _ 1000` (floor division, as in JS).
* Functions that can `throw` return `Except Err Room`; a non-null assertion
  (`!`) on a missing `Map` key would crash in JS and is modelled as
  `Err.typeError`.
* JS truthiness tests on `string` / `number` values (`if (s.ownerClientId)`,
  `if (!sid)`) are modelled by `strTruthy` / `natTruthy` (empty string and 0
  are falsy).
* `setInterval` handles are modelled by a `Bool` field `interval`
  (armed / not armed); tick callbacks (`onWarn60` …) become returned flags.
-/

namespace STimer

abbrev ClientId := String

inductive RoomState where
  | WAITING
  | RUNNING
  | ENDED
deriving Repr, DecidableEq

structure StationSlot where
  id : Nat
  ownerClientId : Option ClientId
  ready : Bool
  connected : Bool
deriving Repr, DecidableEq

/-- Error codes thrown by the core (`throw new Error("E_...")`). -/
inductive Err where
  | invalidPayload
  | stationTaken
  | badState
  | stationsInUse
  | invalidStation
  | roomNotFound
  | typeError
deriving Repr, DecidableEq

@[ext]
structure Room where
  state : RoomState
  stationsCount : Nat
  roundDurationSec : Int
  stations : Nat → Option StationSlot
  bindings : ClientId → Option Nat
  interval : Bool
  timeLeft : Option Int
  startedAt : Option Int
  warned30 : Bool
  warned60 : Bool
  pendingCompaction : Bool

/-- `Map.set` on a map modelled as a function into `Option`. -/
def mset {κ ν : Type} [DecidableEq κ] (m : κ → Option ν) (k : κ) (v : ν) :
    κ → Option ν :=
  fun k' => if k' = k then some v else m k'

/-- `Map.delete` on a map modelled as a function into `Option`. -/
def mdel {κ ν : Type} [DecidableEq κ] (m : κ → Option ν) (k : κ) :
    κ → Option ν :=
  fun k' => if k' = k then none else m k'

/-- JS truthiness of an optional string (`undefined` and `""` are falsy). -/
def strTruthy : Option String → Bool
  | none => false
  | some s => if s = "" then false else true

/-- JS truthiness of an optional number (`undefined` and `0` are falsy). -/
def natTruthy : Option Nat → Bool
  | none => false
  | some n => if n = 0 then false else true

/-- The fresh slot object `{ id: i, ready: false, connected: false }`. -/
def freshSlot (i : Nat) : StationSlot :=
  { id := i, ownerClientId := none, ready := false, connected := false }

/-- `makeStations(n)`: a map holding `freshSlot i` exactly for `1 ≤ i ≤ n`. -/
def makeStations (n : Nat) : Nat → Option StationSlot :=
  fun i => if 1 ≤ i ∧ i ≤ n then some (freshSlot i) else none

/-- `createRoom` (room registry bookkeeping and code generation omitted). -/
def createRoom (stationsCount : Nat) (roundDurationSec : Int) : Room :=
  { state := .WAITING
    stationsCount := stationsCount
    roundDurationSec := roundDurationSec
    stations := makeStations stationsCount
    bindings := fun _ => none
    interval := false
    timeLeft := none
    startedAt := none
    warned30 := false
    warned60 := false
    pendingCompaction := false }

/-- The `ownerClientId` stored at slot `i` (`room.stations.get(i)?.ownerClientId`). -/
def ownerAt (r : Room) (i : Nat) : Option ClientId :=
  match r.stations i with
  | none => none
  | some s => s.ownerClientId

/-- `claimStation(room, clientId, stationId)` from `src/roomStore.ts:100-119`. -/
def claimStation (r : Room) (clientId : ClientId) (stationId : Nat) :
    Except Err Room :=
  if stationId < 1 ∨ stationId > r.stationsCount then .error .invalidPayload
  else
    match r.stations stationId with
    | none => .error .typeError
    | some slot =>
      if strTruthy slot.ownerClientId ∧ slot.ownerClientId ≠ some clientId then
        .error .stationTaken
      else
        -- single active binding: kick previous slot of this client, if any
        let prev := r.bindings clientId
        let r1 : Room :=
          if natTruthy prev ∧ prev ≠ some stationId then
            match prev with
            | none => r
            | some p =>
              match r.stations p with
              | none => r
              | some ps =>
                let cleared := { ps with ownerClientId := none, ready := false,
                                         connected := false }
                { r with stations := mset r.stations p cleared }
          else r
        let claimed := { slot with ownerClientId := some clientId, connected := true }
        .ok { r1 with stations := mset r1.stations stationId claimed,
                      bindings := mset r1.bindings clientId stationId }

/-- `setReady(room, clientId, ready)` from `src/roomStore.ts:338-343`. -/
def setReady (r : Room) (clientId : ClientId) (ready : Bool) :
    Except Err Room :=
  let sid := r.bindings clientId
  if ¬ natTruthy sid then .ok r
  else
    match sid with
    | none => .ok r
    | some s =>
      match r.stations s with
      | none => .error .typeError
      | some slot => .ok { r with stations := mset r.stations s { slot with ready := ready } }

/-- The per-slot test of `allClaimedAndReady`'s loop body. -/
def slotClaimedReady : Option StationSlot → Bool
  | none => false
  | some s => strTruthy s.ownerClientId && s.ready

/-- `allClaimedAndReady(room)` from `src/roomStore.ts:345-352`. -/
def allClaimedAndReady (r : Room) : Bool :=
  (List.range' 1 r.stationsCount).all fun i => slotClaimedReady (r.stations i)

/-- The stations map after `updateConfig`'s two index loops: the delete loop
removes keys `stationsCount+1..200`, then the fill loop inserts a fresh slot
at every missing key `1..stationsCount`.  Each key is touched at most once
per loop, so this bulk form agrees with the sequential JS loops. -/
def updStations (r : Room) (stationsCount : Nat) : Nat → Option StationSlot :=
  fun i =>
    if 1 ≤ i ∧ i ≤ stationsCount then
      match (if stationsCount + 1 ≤ i ∧ i ≤ 200 then none else r.stations i) with
      | none => some (freshSlot i)
      | some s => some s
    else if stationsCount + 1 ≤ i ∧ i ≤ 200 then none
    else r.stations i

/-- `updateConfig(room, stationsCount, roundDurationSec)` from
`src/roomStore.ts:354-371`. -/
def updateConfig (r : Room) (stationsCount : Nat) (roundDurationSec : Int) :
    Except Err Room :=
  if r.state ≠ .WAITING then .error .badState
  else if (List.range' (stationsCount + 1) (r.stationsCount - stationsCount)).any
      (fun i => strTruthy (ownerAt r i)) then
    .error .stationsInUse
  else
    .ok { r with stationsCount := stationsCount,
                 stations := updStations r stationsCount,
                 roundDurationSec := roundDurationSec }

/-- `startRound(room)` from `src/roomStore.ts:373-381`. -/
def startRound (r : Room) (now : Int) : Except Err Room :=
  if r.state ≠ .WAITING then .error .badState
  else if ¬ allClaimedAndReady r then .error .badState
  else .ok { r with state := .RUNNING, startedAt := some now,
                    timeLeft := some r.roundDurationSec,
                    warned30 := false, warned60 := false }

/-- `stopRound(room)` (pause) from `src/roomStore.ts:383-395`. -/
def stopRound (r : Room) (now : Int) : Except Err Room :=
  if r.state ≠ .RUNNING then .error .badState
  else .ok { r with state := .ENDED,
                    interval := false,
                    timeLeft := some (max 0 (r.roundDurationSec -
                      (now - (r.startedAt.getD now)).fdiv 1000)) }

/-- `resumeRound(room)` from `src/roomStore.ts:397-406`. -/
def resumeRound (r : Room) (now : Int) : Except Err Room :=
  if r.state ≠ .ENDED then .error .badState
  else
    let tl := r.timeLeft.getD 0
    if tl ≤ 0 then .error .badState
    else .ok { r with state := .RUNNING,
                      startedAt := some (now - (r.roundDurationSec - tl) * 1000),
                      warned30 := decide (tl ≤ 30),
                      warned60 := decide (tl ≤ 60) }

/-- The callbacks a single `tick` invoked (`onWarn60` / `onWarn30` / `onTimeUp`). -/
structure TickFired where
  warn60 : Bool
  warn30 : Bool
  timeUp : Bool
deriving Repr, DecidableEq

/-- `tick(room, onWarn30, onWarn60, onTimeUp)` from `src/roomStore.ts:408-431`;
the callbacks become flags in the second component. -/
def tick (r : Room) (now : Int) : Room × TickFired :=
  if r.state ≠ .RUNNING then (r, ⟨false, false, false⟩)
  else
    match r.startedAt with
    | none => (r, ⟨false, false, false⟩)
    | some st =>
      let elapsed := (now - st).fdiv 1000
      let tl := max 0 (r.roundDurationSec - elapsed)
      let fire60 := !r.warned60 && decide (r.roundDurationSec ≥ 60) && decide (tl = 60)
      let fire30 := !r.warned30 && decide (tl = 30) && decide (r.roundDurationSec > 30)
      let r1 := { r with timeLeft := some tl,
                         warned60 := r.warned60 || fire60,
                         warned30 := r.warned30 || fire30 }
      if tl = 0 then
        ({ r1 with state := .ENDED, interval := false }, ⟨fire60, fire30, true⟩)
      else (r1, ⟨fire60, fire30, false⟩)

/-- Ready-flag clearing loop of `resetToWaiting` (`for (const s of ...) s.ready = false`). -/
def clearAllReady (st : Nat → Option StationSlot) : Nat → Option StationSlot :=
  fun i => (st i).map fun s => { s with ready := false }

/-- The `while` condition of `tailCompactIfWaiting`:
`s && (s.ownerClientId || s.ready || s.connected)`. -/
def keepSlot : Option StationSlot → Bool
  | none => false
  | some s => strTruthy s.ownerClientId || s.ready || s.connected

/-- The value of `newCount` after `tailCompactIfWaiting`'s `while` loop,
starting the scan at `n`. -/
def tailNewCount (st : Nat → Option StationSlot) : Nat → Nat
  | 0 => 0
  | n + 1 => if keepSlot (st (n + 1)) then n + 1 else tailNewCount st n

/-- `tailCompactIfWaiting(room)` from `src/roomStore.ts:454-467`. -/
def tailCompactIfWaiting (r : Room) : Room :=
  if r.state ≠ .WAITING then r
  else
    let newCount := tailNewCount r.stations r.stationsCount
    if newCount < r.stationsCount then
      { r with stations := fun i =>
                 if newCount + 1 ≤ i ∧ i ≤ r.stationsCount then none
                 else r.stations i,
               stationsCount := newCount }
    else r

/-- One element of the remap list returned by `renumberCompactIfWaiting`. -/
structure Renum where
  clientId : ClientId
  oldId : Nat
  newId : Nat
deriving Repr, DecidableEq

/-- One iteration of the shift loop of `renumberCompactIfWaiting`
(`for (let i = removedId; i < stationsCount; i++)`). -/
def shiftStep (acc : Room × List Renum) (i : Nat) : Room × List Renum :=
  let r := acc.1
  let src := (r.stations (i + 1)).getD (freshSlot (i + 1))
  let dst : StationSlot :=
    { id := i, ownerClientId := src.ownerClientId,
      ready := src.ready, connected := src.connected }
  let r1 := { r with stations := mset r.stations i dst }
  match src.ownerClientId with
  | none => (r1, acc.2)
  | some cid =>
    if cid = "" then (r1, acc.2)   -- `if (src.ownerClientId)` is a truthiness test
    else
      let r2 := if r1.bindings cid = some (i + 1) then
                  { r1 with bindings := mset r1.bindings cid i }
                else r1
      (r2, acc.2 ++ [⟨cid, i + 1, i⟩])

/-- `renumberCompactIfWaiting(room, removedId)` from `src/roomStore.ts:471-527`. -/
def renumberCompactIfWaiting (r : Room) (removedId : Nat) : Room × List Renum :=
  if r.state ≠ .WAITING then (r, [])
  else if removedId < 1 ∨ removedId > r.stationsCount then (r, [])
  else
    let r0 :=
      match r.stations removedId with
      | none => r
      | some rem =>
        let cleared := { rem with ownerClientId := none, connected := false,
                                  ready := false }
        { r with stations := mset r.stations removedId cleared }
    let p := (List.range' removedId (r.stationsCount - removedId)).foldl shiftStep (r0, [])
    ({ p.1 with stations := mdel p.1.stations r.stationsCount,
                stationsCount := r.stationsCount - 1 }, p.2)

/-- `maybeApplyPendingCompaction(room)` from `src/roomStore.ts:530-535`. -/
def maybeApplyPendingCompaction (r : Room) : Room :=
  if r.state ≠ .WAITING then r
  else if ¬ r.pendingCompaction then r
  else { tailCompactIfWaiting r with pendingCompaction := false }

/-- `resetToWaiting(room)` from `src/roomStore.ts:433-442`. -/
def resetToWaiting (r : Room) : Room :=
  maybeApplyPendingCompaction
    { r with stations := clearAllReady r.stations,
             state := .WAITING,
             startedAt := none, timeLeft := none,
             warned30 := false, warned60 := false }

/-- `immediateEnd(room)` from `src/roomStore.ts:538-545`. -/
def immediateEnd (r : Room) : Room :=
  { r with interval := false, timeLeft := some 0, state := .ENDED }

/-! Handler-level operations from `src/socket.ts` (room mutations only; the
controller-authorization check, payload schemas and the socket broadcasts are
outside this embedding). -/

/-- `central:removeStation` handler from `src/socket.ts:92-140`.  The second
component is the remap list broadcast as `station:renumbered`; the third is
`true` when the reply said `pendingCompaction: true` (RUNNING branch). -/
def removeStation (r : Room) (stationId : Nat) :
    Except Err (Room × List Renum × Bool) :=
  if stationId < 1 ∨ stationId > r.stationsCount then .error .invalidStation
  else
    match r.stations stationId with
    | none => .error .invalidStation
    | some slot =>
      if r.state = .RUNNING then
        -- clear the slot, but do not compact while RUNNING
        let cleared := { slot with ownerClientId := none, ready := false,
                                   connected := false }
        .ok ({ r with stations := mset r.stations stationId cleared,
                      pendingCompaction := true }, [], true)
      else
        let p := renumberCompactIfWaiting r stationId
        .ok (p.1, p.2, false)

/-- `station:leave` handler from `src/socket.ts:296-328`. -/
def stationLeave (r : Room) (clientId : ClientId) : Room :=
  let sid := r.bindings clientId
  if ¬ natTruthy sid then r
  else
    match sid with
    | none => r
    | some s =>
      let r1 :=
        match r.stations s with
        | none => r
        | some slot =>
          let cleared := { slot with ownerClientId := none, ready := false,
                                     connected := false }
          { r with stations := mset r.stations s cleared }
      let r2 := { r1 with bindings := mdel r1.bindings clientId }
      if r2.state = .RUNNING then { r2 with pendingCompaction := true }
      else tailCompactIfWaiting r2

/-- `station:join` handler from `src/socket.ts:235-293` (auto-reclaim / bind,
including the auto-start attempt whose failure is swallowed by `catch {}`). -/
def stationJoin (r : Room) (clientId : ClientId) (stationId? : Option Nat)
    (now : Int) : Except Err Room :=
  let bound := r.bindings clientId
  let targetId := stationId?.orElse fun _ => bound
  if ¬ natTruthy targetId then .ok r
  else
    match targetId with
    | none => .ok r
    | some tid =>
      match r.stations tid with
      | none => .error .invalidPayload
      | some slot =>
        if strTruthy slot.ownerClientId ∧ slot.ownerClientId ≠ some clientId then
          .error .stationTaken
        else
          let bound := { slot with ownerClientId := some clientId, connected := true }
          let r1 := { r with stations := mset r.stations tid bound,
                             bindings := mset r.bindings clientId tid }
          if allClaimedAndReady r1 ∧ r1.state = .WAITING then
            match startRound r1 now with
            | .ok r2 => .ok r2
            | .error _ => .ok r1
          else .ok r1

/-- `central:resetRoom` handler from `src/socket.ts:216-232`: clear the
interval handle, then `resetToWaiting`. -/
def centralResetRoom (r : Room) : Room :=
  resetToWaiting { r with interval := false }

/-! ## The room invariant (claim C1)

`KeysOk` and `BindOk` are the two clauses of the claimed invariant.  `Inv`
strengthens them with two facts that hold for every room the system can
actually build and that the preservation proofs need: no slot's owner is the
empty string (socket connections with a falsy `clientId` are rejected at
`src/socket.ts:36-41`), and `stationsCount ≤ 200` (the `zod` schemas cap
`stationsCount` at 200, and `updateConfig` hard-codes 200 in its delete
loop). -/

/-- The keys of `stations` are exactly `{1..stationsCount}`. -/
def KeysOk (r : Room) : Prop :=
  ∀ i : Nat, (r.stations i).isSome ↔ (1 ≤ i ∧ i ≤ r.stationsCount)

/-- `bindings[c] = s` exactly when slot `s` has `ownerClientId = c`. -/
def BindOk (r : Room) : Prop :=
  ∀ c s, r.bindings c = some s ↔
    (∃ slot, r.stations s = some slot ∧ slot.ownerClientId = some c)

/-- No slot is owned by the empty (JS-falsy) client id. -/
def OwnersNonEmpty (r : Room) : Prop :=
  ∀ i slot, r.stations i = some slot → slot.ownerClientId ≠ some ""

/-- The full invariant: the claimed clauses plus the two framing facts. -/
def Inv (r : Room) : Prop :=
  KeysOk r ∧ BindOk r ∧ OwnersNonEmpty r ∧ r.stationsCount ≤ 200

/-! ## Basic lemmas about the map model and truthiness -/

theorem mset_self {κ ν : Type} [DecidableEq κ] (m : κ → Option ν) (k : κ)
    (v : ν) : mset m k v k = some v := by simp [mset]

theorem mset_ne {κ ν : Type} [DecidableEq κ] (m : κ → Option ν) (k k' : κ)
    (v : ν) (h : k' ≠ k) : mset m k v k' = m k' := by simp [mset, h]

theorem mdel_self {κ ν : Type} [DecidableEq κ] (m : κ → Option ν) (k : κ) :
    mdel m k k = none := by simp [mdel]

theorem mdel_ne {κ ν : Type} [DecidableEq κ] (m : κ → Option ν) (k k' : κ)
    (h : k' ≠ k) : mdel m k k' = m k' := by simp [mdel, h]

theorem strTruthy_iff (o : Option String) :
    strTruthy o = true ↔ ∃ c, o = some c ∧ c ≠ "" := by
  cases o with
  | none => simp [strTruthy]
  | some s => by_cases h : s = "" <;> simp [strTruthy, h]

theorem strTruthy_false_iff (o : Option String) :
    strTruthy o = false ↔ o = none ∨ o = some "" := by
  cases o with
  | none => simp [strTruthy]
  | some s => by_cases h : s = "" <;> simp [strTruthy, h]

theorem natTruthy_iff (o : Option Nat) :
    natTruthy o = true ↔ ∃ n, o = some n ∧ n ≠ 0 := by
  cases o with
  | none => simp [natTruthy]
  | some n => by_cases h : n = 0 <;> simp [natTruthy, h]

/-- Transfer `Inv` along equality of the three fields it mentions. -/
theorem inv_congr (r r' : Room) (hst : r'.stations = r.stations)
    (hb : r'.bindings = r.bindings) (hc : r'.stationsCount = r.stationsCount)
    (h : Inv r) : Inv r' := by
  rw [Inv, KeysOk, BindOk, OwnersNonEmpty, hst, hb, hc]; exact h

/-- Under `Inv`, a client bound to `s` really owns slot `s` (and the slot
exists), so in particular `1 ≤ s ≤ stationsCount`. -/
theorem Inv.bound_mem {r : Room} (h : Inv r) {c : ClientId} {s : Nat}
    (hb : r.bindings c = some s) :
    ∃ slot, r.stations s = some slot ∧ slot.ownerClientId = some c ∧
      1 ≤ s ∧ s ≤ r.stationsCount := by
  obtain ⟨hk, hbi, _hne, _⟩ := h
  obtain ⟨slot, hs, ho⟩ := (hbi c s).mp hb
  exact ⟨slot, hs, ho, (hk s).mp (by simp [hs]) |>.1, (hk s).mp (by simp [hs]) |>.2⟩

/-- Under `Inv`, a client owns at most one slot. -/
theorem Inv.owner_unique {r : Room} (h : Inv r) {c : ClientId} {s s' : Nat}
    {slot slot' : StationSlot}
    (hs : r.stations s = some slot) (ho : slot.ownerClientId = some c)
    (hs' : r.stations s' = some slot') (ho' : slot'.ownerClientId = some c) :
    s = s' := by
  obtain ⟨_, hbi, _, _⟩ := h
  have h1 : r.bindings c = some s := (hbi c s).mpr ⟨slot, hs, ho⟩
  have h2 : r.bindings c = some s' := (hbi c s').mpr ⟨slot', hs', ho'⟩
  rw [h1] at h2; exact (Option.some.injEq _ _).mp h2

/-! ## Concrete example rooms (used by the witnesses and counterexamples) -/

def slotA : StationSlot :=
  { id := 1, ownerClientId := some "a", ready := true, connected := true }

def slotB : StationSlot :=
  { id := 2, ownerClientId := some "b", ready := true, connected := true }

/-- A WAITING 2-station room with both slots claimed and ready. -/
def exW : Room :=
  { state := .WAITING, stationsCount := 2, roundDurationSec := 65,
    stations := fun i => if i = 1 then some slotA else if i = 2 then some slotB else none,
    bindings := fun c => if c = "a" then some 1 else if c = "b" then some 2 else none,
    interval := false, timeLeft := none, startedAt := none,
    warned30 := false, warned60 := false, pendingCompaction := false }

/-- `exW` mid-round (as produced by `startRound exW 0`). -/
def exRun : Room :=
  { exW with state := .RUNNING, startedAt := some 0, timeLeft := some 65 }

/-- A WAITING 2-station room where only slot 1 is claimed (by `"a"`, not ready). -/
def exA1 : Room :=
  { state := .WAITING, stationsCount := 2, roundDurationSec := 65,
    stations := fun i =>
      if i = 1 then some { id := 1, ownerClientId := some "a", ready := false, connected := true }
      else if i = 2 then some (freshSlot 2) else none,
    bindings := fun c => if c = "a" then some 1 else none,
    interval := false, timeLeft := none, startedAt := none,
    warned30 := false, warned60 := false, pendingCompaction := false }

theorem inv_exW : Inv exW := by
  refine ⟨?_, ?_, ?_, by norm_num [exW]⟩
  · intro i
    by_cases h1 : i = 1
    · subst h1; simp [exW]
    · by_cases h2 : i = 2
      · subst h2; simp [exW]
      · simp only [exW]; simp [h1, h2]; omega
  · intro c s
    constructor
    · intro h
      by_cases hca : c = "a"
      · subst hca
        simp only [exW] at h ⊢
        simp at h
        subst h
        exact ⟨slotA, by simp [slotA]⟩
      · by_cases hcb : c = "b"
        · subst hcb
          simp only [exW] at h ⊢
          simp at h
          subst h
          exact ⟨slotB, by simp [slotB]⟩
        · simp only [exW] at h; simp [hca, hcb] at h
    · rintro ⟨slot, hs, ho⟩
      by_cases h1 : s = 1
      · subst h1
        simp only [exW] at hs ⊢
        simp at hs
        subst hs
        simp only [slotA] at ho
        simp at ho
        subst ho; simp
      · by_cases h2 : s = 2
        · subst h2
          simp only [exW] at hs ⊢
          simp at hs
          subst hs
          simp only [slotB] at ho
          simp at ho
          subst ho; simp
        · simp only [exW] at hs; simp [h1, h2] at hs
  · intro i slot hs
    by_cases h1 : i = 1
    · subst h1; simp only [exW] at hs; simp at hs; subst hs; simp [slotA]
    · by_cases h2 : i = 2
      · subst h2; simp only [exW] at hs; simp at hs; subst hs; simp [slotB]
      · simp only [exW] at hs; simp [h1, h2] at hs

theorem inv_exRun : Inv exRun :=
  inv_congr exW exRun rfl rfl rfl inv_exW

theorem inv_exA1 : Inv exA1 := by
  refine ⟨?_, ?_, ?_, by norm_num [exA1]⟩
  · intro i
    by_cases h1 : i = 1
    · subst h1; simp [exA1]
    · by_cases h2 : i = 2
      · subst h2; simp [exA1]
      · simp only [exA1]; simp [h1, h2]; omega
  · intro c s
    constructor
    · intro h
      by_cases hca : c = "a"
      · subst hca
        simp only [exA1] at h ⊢
        simp at h
        subst h
        exact ⟨_, rfl, rfl⟩
      · simp only [exA1] at h; simp [hca] at h
    · rintro ⟨slot, hs, ho⟩
      by_cases h1 : s = 1
      · subst h1
        simp only [exA1] at hs ⊢
        simp at hs
        subst hs
        simp at ho
        subst ho; simp
      · by_cases h2 : s = 2
        · subst h2
          simp only [exA1] at hs
          simp at hs
          subst hs
          simp [freshSlot] at ho
        · simp only [exA1] at hs; simp [h1, h2] at hs
  · intro i slot hs
    by_cases h1 : i = 1
    · subst h1; simp only [exA1] at hs; simp at hs
      subst hs; simp
    · by_cases h2 : i = 2
      · subst h2; simp only [exA1] at hs; simp at hs
        subst hs; simp [freshSlot]
      · simp only [exA1] at hs; simp [h1, h2] at hs

/-- Freshly created rooms satisfy the invariant. -/
theorem inv_createRoom (n : Nat) (d : Int) (hn : n ≤ 200) :
    Inv (createRoom n d) := by
  refine ⟨?_, ?_, ?_, hn⟩
  · intro i
    by_cases h : 1 ≤ i ∧ i ≤ n <;> simp [createRoom, makeStations, h]
  · intro c s
    constructor
    · intro h; simp [createRoom] at h
    · rintro ⟨slot, hs, ho⟩
      simp [createRoom, makeStations] at hs
      obtain ⟨_, rfl⟩ := hs
      simp [freshSlot] at ho
  · intro i slot hs
    simp [createRoom, makeStations] at hs
    obtain ⟨_, rfl⟩ := hs
    simp [freshSlot]

/-! ## Claim C2: `startRound` succeeds iff WAITING and all slots claimed+ready -/

/-- The spec's wording of the start guard: every slot id in
`1..stationsCount` has a non-empty owner and `ready = true`. -/
def SpecAllClaimedReady (r : Room) : Prop :=
  ∀ i, 1 ≤ i → i ≤ r.stationsCount →
    ∃ slot c, r.stations i = some slot ∧ slot.ownerClientId = some c ∧
      c ≠ "" ∧ slot.ready = true

/-- The code's loop `allClaimedAndReady` computes exactly the spec's guard. -/
theorem allClaimedAndReady_iff (r : Room) :
    allClaimedAndReady r = true ↔ SpecAllClaimedReady r := by
  unfold allClaimedAndReady SpecAllClaimedReady
  rw [List.all_eq_true]
  constructor
  · intro h i h1 h2
    have hm : i ∈ List.range' 1 r.stationsCount := by
      rw [List.mem_range']
      exact ⟨i - 1, by omega, by omega⟩
    have hi := h i hm
    unfold slotClaimedReady at hi
    cases hs : r.stations i with
    | none => rw [hs] at hi; simp at hi
    | some s =>
      rw [hs] at hi
      simp at hi
      obtain ⟨ht, hr⟩ := hi
      obtain ⟨c, hc, hcne⟩ := (strTruthy_iff _).mp ht
      exact ⟨s, c, rfl, hc, hcne, hr⟩
  · intro h i hm
    rw [List.mem_range'] at hm
    obtain ⟨j, hj, rfl⟩ := hm
    obtain ⟨slot, c, hs, ho, hcne, hr⟩ := h (1 + 1 * j) (by omega) (by omega)
    unfold slotClaimedReady
    rw [hs]
    simp [hr]
    exact (strTruthy_iff _).mpr ⟨c, ho, hcne⟩

/-- C2: `startRound` succeeds iff the room is WAITING and every slot id in
`1..stationsCount` has a non-empty owner and `ready = true`; every failure is
`E_BAD_STATE`, raised before any mutation (the embedding is pure, so an
`error` result literally leaves the room unchanged); in particular an
already-RUNNING room yields `E_BAD_STATE`. -/
theorem startRound_spec (r : Room) (now : Int) :
    ((∃ r', startRound r now = .ok r') ↔
        (r.state = .WAITING ∧ SpecAllClaimedReady r))
    ∧ (∀ e, startRound r now = .error e → e = .badState)
    ∧ (r.state = .RUNNING → startRound r now = .error .badState) := by
  refine ⟨⟨?_, ?_⟩, ?_, ?_⟩
  · rintro ⟨r', h⟩
    unfold startRound at h
    by_cases hw : r.state = .WAITING
    · by_cases ha : allClaimedAndReady r
      · exact ⟨hw, (allClaimedAndReady_iff r).mp ha⟩
      · simp [hw, ha] at h
    · simp [hw] at h
  · rintro ⟨hw, ha⟩
    refine ⟨{ r with state := .RUNNING, startedAt := some now, timeLeft := some r.roundDurationSec, warned30 := false, warned60 := false }, ?_⟩
    unfold startRound
    simp [hw, (allClaimedAndReady_iff r).mpr ha]
  · intro e h
    unfold startRound at h
    by_cases hw : r.state = .WAITING
    · by_cases ha : allClaimedAndReady r
      · simp [hw, ha] at h
      · simp [hw, ha] at h; exact h.symm
    · simp [hw] at h; exact h.symm
  · intro hrun
    unfold startRound
    have : r.state ≠ .WAITING := by rw [hrun]; intro h; cases h
    simp [this]

/-- Witness for C2: double-start on the concrete RUNNING room `exRun` fails
with `E_BAD_STATE`. -/
theorem startRound_spec_witness : startRound exRun 0 = .error .badState :=
  (startRound_spec exRun 0).2.2 rfl

/-! ## Claim C6: `updateConfig` guards -/

/-- The shrink guard's loop condition, as a predicate on the searched range. -/
theorem claimedAbove_iff (r : Room) (n : Nat) :
    ((List.range' (n + 1) (r.stationsCount - n)).any
        fun i => strTruthy (ownerAt r i)) = true ↔
      ∃ i, n + 1 ≤ i ∧ i ≤ r.stationsCount ∧ strTruthy (ownerAt r i) = true := by
  rw [List.any_eq_true]
  constructor
  · rintro ⟨i, hm, hf⟩
    rw [List.mem_range'] at hm
    obtain ⟨j, hj, rfl⟩ := hm
    exact ⟨n + 1 + 1 * j, by omega, by omega, hf⟩
  · rintro ⟨i, h1, h2, hf⟩
    refine ⟨i, ?_, hf⟩
    rw [List.mem_range']
    exact ⟨i - (n + 1), by omega, by omega⟩

/-- C6: `updateConfig` fails `E_BAD_STATE` when the room is not WAITING;
fails `E_STATIONS_IN_USE` when some slot above the new count has a non-empty
owner; succeeds when no slot above the new count is claimed — in particular
shrinking to exactly the highest claimed index succeeds. -/
theorem updateConfig_spec (r : Room) (n : Nat) (d : Int) :
    (r.state ≠ .WAITING → updateConfig r n d = .error .badState)
    ∧ (r.state = .WAITING →
        (∃ i, n + 1 ≤ i ∧ i ≤ r.stationsCount ∧ strTruthy (ownerAt r i) = true) →
        updateConfig r n d = .error .stationsInUse)
    ∧ (r.state = .WAITING →
        (∀ i, n + 1 ≤ i → i ≤ r.stationsCount → strTruthy (ownerAt r i) = false) →
        ∃ r', updateConfig r n d = .ok r' ∧ r'.stationsCount = n ∧
          r'.roundDurationSec = d)
    ∧ (r.state = .WAITING →
        strTruthy (ownerAt r n) = true →
        (∀ i, n + 1 ≤ i → i ≤ r.stationsCount → strTruthy (ownerAt r i) = false) →
        ∃ r', updateConfig r n d = .ok r' ∧ r'.stationsCount = n) := by
  have hany := claimedAbove_iff r n
  refine ⟨?_, ?_, ?_, ?_⟩
  · intro hne
    unfold updateConfig
    simp [hne]
  · intro hw hex
    unfold updateConfig
    simp only [hw]
    have : ((List.range' (n + 1) (r.stationsCount - n)).any
        fun i => strTruthy (ownerAt r i)) = true := by
      apply hany.mpr
      obtain ⟨i, h1, h2, hf⟩ := hex
      exact ⟨i, h1, h2, hf⟩
    simp [this]
  · intro hw hnone
    unfold updateConfig
    have : ((List.range' (n + 1) (r.stationsCount - n)).any
        fun i => strTruthy (ownerAt r i)) = false := by
      rw [Bool.eq_false_iff]
      intro hc
      obtain ⟨i, h1, h2, hf⟩ := hany.mp hc
      rw [hnone i h1 h2] at hf
      cases hf
    simp [hw, this]
  · intro hw _hcl hnone
    obtain ⟨r', h1, h2, _⟩ :=
      (by
        unfold updateConfig
        have : ((List.range' (n + 1) (r.stationsCount - n)).any
            fun i => strTruthy (ownerAt r i)) = false := by
          rw [Bool.eq_false_iff]
          intro hc
          obtain ⟨i, hi1, hi2, hf⟩ := hany.mp hc
          rw [hnone i hi1 hi2] at hf
          cases hf
        simp [hw, this] :
        ∃ r', updateConfig r n d = .ok r' ∧ r'.stationsCount = n ∧
          r'.roundDurationSec = d)
    exact ⟨r', h1, h2⟩

/-- Witness for C6: on the concrete room `exA1` (slot 1 claimed, slot 2 free)
shrinking to the highest claimed index 1 succeeds with the new count 1. -/
theorem updateConfig_spec_witness :
    ∃ r', updateConfig exA1 1 60 = .ok r' ∧ r'.stationsCount = 1 :=
  (updateConfig_spec exA1 1 60).2.2.2 rfl rfl
    (by intro i h1 h2
        have hc : exA1.stationsCount = 2 := rfl
        rw [hc] at h2
        have h : i = 2 := by omega
        subst h; rfl)

/-! ## Claim C9: tail compaction of a fully-vacant WAITING room -/

/-- If every slot `1..n` fails the keep test, the tail scan reaches 0. -/
theorem tailNewCount_eq_zero (st : Nat → Option StationSlot) (n : Nat)
    (h : ∀ i, 1 ≤ i → i ≤ n → keepSlot (st i) = false) :
    tailNewCount st n = 0 := by
  induction n with
  | zero => rfl
  | succ m ih =>
    unfold tailNewCount
    rw [h (m + 1) (by omega) (by omega)]
    simp only [Bool.false_eq_true, if_false]
    exact ih fun i h1 h2 => h i h1 (by omega)

/-- A room with `stationsCount = 0` passes `allClaimedAndReady` vacuously. -/
theorem allClaimedAndReady_of_zero (r : Room) (h : r.stationsCount = 0) :
    allClaimedAndReady r = true := by
  unfold allClaimedAndReady
  rw [h]
  rfl

/-- C9: tail compaction of a WAITING room whose slots are all unclaimed,
not ready and not connected empties the room (`stationsCount = 0`, no keys
left); `allClaimedAndReady` then holds vacuously, so `startRound` succeeds
and moves the empty room to RUNNING. -/
theorem emptyRoom_start_spec (r : Room) (now : Int)
    (hw : r.state = .WAITING) (hk : KeysOk r)
    (he : ∀ i, 1 ≤ i → i ≤ r.stationsCount →
        ∃ slot, r.stations i = some slot ∧ slot.ownerClientId = none ∧
          slot.ready = false ∧ slot.connected = false) :
    (tailCompactIfWaiting r).stationsCount = 0
    ∧ (∀ i, (tailCompactIfWaiting r).stations i = none)
    ∧ allClaimedAndReady (tailCompactIfWaiting r) = true
    ∧ ∃ r', startRound (tailCompactIfWaiting r) now = .ok r' ∧
        r'.state = .RUNNING ∧ r'.stationsCount = 0 := by
  have hkeep : ∀ i, 1 ≤ i → i ≤ r.stationsCount → keepSlot (r.stations i) = false := by
    intro i h1 h2
    obtain ⟨slot, hs, ho, hr, hc⟩ := he i h1 h2
    rw [hs]
    show (strTruthy slot.ownerClientId || slot.ready || slot.connected) = false
    rw [ho, hr, hc]
    rfl
  have h0 : tailNewCount r.stations r.stationsCount = 0 :=
    tailNewCount_eq_zero _ _ hkeep
  have hnone : ∀ i, ¬ (1 ≤ i ∧ i ≤ r.stationsCount) → r.stations i = none := by
    intro i hi
    rcases h : r.stations i with _ | s
    · rfl
    · exact absurd ((hk i).mp (by simp [h])) hi
  have hmain : (tailCompactIfWaiting r).stationsCount = 0
      ∧ (∀ i, (tailCompactIfWaiting r).stations i = none)
      ∧ (tailCompactIfWaiting r).state = .WAITING := by
    unfold tailCompactIfWaiting
    rw [if_neg (by simp [hw])]
    simp only [h0]
    rcases Nat.eq_zero_or_pos r.stationsCount with hc | hc
    · rw [if_neg (by omega)]
      refine ⟨hc, ?_, hw⟩
      intro i
      apply hnone
      omega
    · rw [if_pos hc]
      refine ⟨rfl, ?_, hw⟩
      intro i
      by_cases hin : 0 + 1 ≤ i ∧ i ≤ r.stationsCount
      · simp [hin]
      · simp only [hin, if_false]
        exact hnone i (by omega)
  obtain ⟨hcnt, hst, hstate⟩ := hmain
  have hacr : allClaimedAndReady (tailCompactIfWaiting r) = true :=
    allClaimedAndReady_of_zero _ hcnt
  refine ⟨hcnt, hst, hacr, ?_⟩
  refine ⟨{ tailCompactIfWaiting r with state := .RUNNING, startedAt := some now, timeLeft := some (tailCompactIfWaiting r).roundDurationSec, warned30 := false, warned60 := false }, ?_, rfl, hcnt⟩
  unfold startRound
  simp [hstate, hacr]

/-- Witness for C9: the fresh (hence all-vacant) 2-station room. -/
theorem emptyRoom_start_spec_witness :
    (tailCompactIfWaiting (createRoom 2 65)).stationsCount = 0
    ∧ (∀ i, (tailCompactIfWaiting (createRoom 2 65)).stations i = none)
    ∧ allClaimedAndReady (tailCompactIfWaiting (createRoom 2 65)) = true
    ∧ ∃ r', startRound (tailCompactIfWaiting (createRoom 2 65)) 0 = .ok r' ∧
        r'.state = .RUNNING ∧ r'.stationsCount = 0 :=
  emptyRoom_start_spec (createRoom 2 65) 0 rfl (inv_createRoom 2 65 (by omega)).1
    (by intro i h1 h2
        have hc : (createRoom 2 65).stationsCount = 2 := rfl
        rw [hc] at h2
        refine ⟨freshSlot i, ?_, rfl, rfl, rfl⟩
        show makeStations 2 i = some (freshSlot i)
        unfold makeStations
        rw [if_pos ⟨h1, h2⟩])

/-! ## Claim C10: re-claiming one's own slot is idempotent -/

/-- C10: claiming a slot the client already owns succeeds (no
`E_STATION_TAKEN`), leaves ownership and the whole bindings map unchanged,
and only sets `connected := true` on that slot. -/
theorem claimStation_reclaim_spec (r : Room) (c : ClientId) (sid : Nat)
    (slot : StationSlot) (hinv : Inv r) (hs : r.stations sid = some slot)
    (ho : slot.ownerClientId = some c) :
    ∃ r', claimStation r c sid = .ok r'
      ∧ r'.bindings = r.bindings
      ∧ (∀ i, ownerAt r' i = ownerAt r i)
      ∧ r'.stations sid = some { slot with connected := true }
      ∧ (∀ i, i ≠ sid → r'.stations i = r.stations i) := by
  have hrange : 1 ≤ sid ∧ sid ≤ r.stationsCount := (hinv.1 sid).mp (by simp [hs])
  have hbind : r.bindings c = some sid := (hinv.2.1 c sid).mpr ⟨slot, hs, ho⟩
  have hcomp : claimStation r c sid =
      .ok { r with stations := mset r.stations sid { slot with ownerClientId := some c, connected := true },
                   bindings := mset r.bindings c sid } := by
    unfold claimStation
    rw [if_neg (by omega), hs]
    simp only []
    rw [if_neg (by simp [ho])]
    simp only [hbind]
    rw [if_neg (by simp)]
  refine ⟨_, hcomp, ?_, ?_, ?_, ?_⟩
  · funext c'
    dsimp only
    by_cases hc' : c' = c
    · subst hc'
      rw [mset_self, hbind]
    · rw [mset_ne _ _ _ _ hc']
  · intro i
    unfold ownerAt
    dsimp only
    by_cases hi : i = sid
    · subst hi
      rw [mset_self, hs]
      simp [ho]
    · rw [mset_ne _ _ _ _ hi]
  · dsimp only
    rw [mset_self, ho]
  · intro i hi
    dsimp only
    exact mset_ne _ _ _ _ hi

/-! ## Claim C4: pause freezes `timeLeft`; resume reconstructs `startedAt` -/

/-- C4: pausing a RUNNING room freezes
`timeLeft = max(0, roundDurationSec - elapsed)`; resuming reconstructs
`startedAt = now - (roundDurationSec - timeLeft)*1000`, so that at the resume
instant `roundDurationSec - elapsed = timeLeft` exactly and an immediate tick
recomputes the same `timeLeft`; the warn latches come back as already-fired
exactly when the retained `timeLeft` is at or below 60 resp. 30. -/
theorem pause_resume_spec (r : Room) (t1 t2 st tl : Int)
    (hrun : r.state = .RUNNING) (hst : r.startedAt = some st)
    (htl0 : tl = max 0 (r.roundDurationSec - (t1 - st).fdiv 1000))
    (htl : 0 < tl) :
    ∃ r1 r2,
      stopRound r t1 = .ok r1
      ∧ r1.timeLeft = some tl
      ∧ resumeRound r1 t2 = .ok r2
      ∧ r2.startedAt = some (t2 - (r.roundDurationSec - tl) * 1000)
      ∧ r.roundDurationSec -
          (t2 - (t2 - (r.roundDurationSec - tl) * 1000)).fdiv 1000 = tl
      ∧ (tick r2 t2).1.timeLeft = some tl
      ∧ r2.warned60 = decide (tl ≤ 60)
      ∧ r2.warned30 = decide (tl ≤ 30) := by
  have hcancel : (t2 - (t2 - (r.roundDurationSec - tl) * 1000)).fdiv 1000 =
      r.roundDurationSec - tl := by
    have h1 : t2 - (t2 - (r.roundDurationSec - tl) * 1000) =
        (r.roundDurationSec - tl) * 1000 := by ring
    rw [h1, Int.mul_fdiv_cancel _ (by norm_num)]
  refine ⟨{ r with state := .ENDED, interval := false, timeLeft := some tl },
    { r with state := .RUNNING, interval := false, timeLeft := some tl, startedAt := some (t2 - (r.roundDurationSec - tl) * 1000), warned30 := decide (tl ≤ 30), warned60 := decide (tl ≤ 60) },
    ?_, rfl, ?_, rfl, ?_, ?_, rfl, rfl⟩
  · unfold stopRound
    rw [if_neg (by simp [hrun]), hst]
    simp only [Option.getD_some]
    rw [← htl0]
  · unfold resumeRound
    rw [if_neg (by simp)]
    simp only [Option.getD_some]
    rw [if_neg (by omega)]
  · rw [hcancel]; ring
  · unfold tick
    rw [if_neg (by simp)]
    simp only []
    rw [hcancel]
    have h2 : max 0 (r.roundDurationSec - (r.roundDurationSec - tl)) = tl := by
      omega
    rw [h2, if_neg (by omega)]

/-- Witness for C4 at a concrete run: `exRun` (duration 65, started at 0)
paused at t=5500ms (timeLeft 60) and resumed at t=9000ms. -/
theorem pause_resume_spec_witness :
    ∃ r1 r2,
      stopRound exRun 5500 = .ok r1
      ∧ r1.timeLeft = some 60
      ∧ resumeRound r1 9000 = .ok r2
      ∧ r2.startedAt = some (9000 - (exRun.roundDurationSec - 60) * 1000)
      ∧ exRun.roundDurationSec -
          (9000 - (9000 - (exRun.roundDurationSec - 60) * 1000)).fdiv 1000 = 60
      ∧ (tick r2 9000).1.timeLeft = some 60
      ∧ r2.warned60 = decide ((60:Int) ≤ 60)
      ∧ r2.warned30 = decide ((60:Int) ≤ 30) :=
  pause_resume_spec exRun 5500 9000 0 60 rfl rfl (by decide) (by decide)

/-! ## Claim C8: reset returns the room to a clean WAITING state -/

/-- The tail scan never increases the count. -/
theorem tailNewCount_le (st : Nat → Option StationSlot) (n : Nat) :
    tailNewCount st n ≤ n := by
  induction n with
  | zero => exact Nat.le_refl 0
  | succ m ih =>
    unfold tailNewCount
    split
    · exact Nat.le_refl _
    · exact Nat.le_succ_of_le ih

/-- Field-level description of `tailCompactIfWaiting` on a WAITING room. -/
theorem tailCompact_proj (r : Room) (hw : r.state = .WAITING) :
    (tailCompactIfWaiting r).state = .WAITING
    ∧ (tailCompactIfWaiting r).stationsCount = tailNewCount r.stations r.stationsCount
    ∧ (tailCompactIfWaiting r).startedAt = r.startedAt
    ∧ (tailCompactIfWaiting r).timeLeft = r.timeLeft
    ∧ (tailCompactIfWaiting r).warned30 = r.warned30
    ∧ (tailCompactIfWaiting r).warned60 = r.warned60
    ∧ (tailCompactIfWaiting r).interval = r.interval
    ∧ (tailCompactIfWaiting r).pendingCompaction = r.pendingCompaction
    ∧ (tailCompactIfWaiting r).bindings = r.bindings
    ∧ (tailCompactIfWaiting r).roundDurationSec = r.roundDurationSec
    ∧ (∀ i slot, (tailCompactIfWaiting r).stations i = some slot →
        r.stations i = some slot) := by
  unfold tailCompactIfWaiting
  rw [if_neg (by simp [hw])]
  by_cases hlt : tailNewCount r.stations r.stationsCount < r.stationsCount
  · rw [if_pos hlt]
    refine ⟨hw, rfl, rfl, rfl, rfl, rfl, rfl, rfl, rfl, rfl, ?_⟩
    intro i slot h
    dsimp only at h
    by_cases hin : tailNewCount r.stations r.stationsCount + 1 ≤ i ∧ i ≤ r.stationsCount
    · rw [if_pos hin] at h; cases h
    · rw [if_neg hin] at h; exact h
  · rw [if_neg hlt]
    have heq : tailNewCount r.stations r.stationsCount = r.stationsCount := by
      have := tailNewCount_le r.stations r.stationsCount
      omega
    exact ⟨hw, heq.symm, rfl, rfl, rfl, rfl, rfl, rfl, rfl, rfl, fun i slot h => h⟩

/-- `clearAllReady` fixes maps whose slots are all not-ready. -/
theorem clearAllReady_fix (st : Nat → Option StationSlot)
    (h : ∀ i slot, st i = some slot → slot.ready = false) :
    clearAllReady st = st := by
  funext i
  unfold clearAllReady
  cases hsi : st i with
  | none => rfl
  | some s =>
    have hr := h i s hsi
    have : ({ s with ready := false } : StationSlot) = s := by
      cases s
      simp_all
    rw [Option.map_some', this]

/-- A room already in the post-reset shape is a fixed point of the reset
handler. -/
theorem reset_fixedpoint (r : Room) (h1 : r.state = .WAITING)
    (h2 : r.interval = false) (h3 : r.pendingCompaction = false)
    (h4 : r.startedAt = none) (h5 : r.timeLeft = none)
    (h6 : r.warned30 = false) (h7 : r.warned60 = false)
    (h8 : ∀ i slot, r.stations i = some slot → slot.ready = false) :
    centralResetRoom r = r := by
  unfold centralResetRoom resetToWaiting
  have hA : ({ { r with interval := false } with stations := clearAllReady ({ r with interval := false } : Room).stations, state := RoomState.WAITING, startedAt := none, timeLeft := none, warned30 := false, warned60 := false } : Room) = r := by
    ext1 <;> simp only [clearAllReady_fix r.stations h8, h1, h2, h4, h5, h6, h7]
  rw [hA]
  unfold maybeApplyPendingCompaction
  rw [if_neg (by simp [h1]), if_pos (by simp [h3])]

/-- C8: the reset handler (`central:resetRoom`, clearing the interval and
calling `resetToWaiting`) needs no guard: from any state it yields WAITING,
clears every slot's ready flag, clears `startedAt`/`timeLeft`/both warn
latches, disarms the timer, applies a pending tail compaction (and clears the
`pendingCompaction` flag), and is idempotent. -/
theorem resetRoom_spec (r : Room) :
    (centralResetRoom r).state = .WAITING
    ∧ (∀ i slot, (centralResetRoom r).stations i = some slot → slot.ready = false)
    ∧ (centralResetRoom r).startedAt = none
    ∧ (centralResetRoom r).timeLeft = none
    ∧ (centralResetRoom r).warned30 = false
    ∧ (centralResetRoom r).warned60 = false
    ∧ (centralResetRoom r).interval = false
    ∧ (centralResetRoom r).pendingCompaction = false
    ∧ (r.pendingCompaction = false →
        (centralResetRoom r).stationsCount = r.stationsCount)
    ∧ (r.pendingCompaction = true →
        (centralResetRoom r).stationsCount =
          tailNewCount (clearAllReady r.stations) r.stationsCount)
    ∧ centralResetRoom (centralResetRoom r) = centralResetRoom r := by
  have hready : ∀ (st : Nat → Option StationSlot) i slot,
      clearAllReady st i = some slot → slot.ready = false := by
    intro st i slot h
    unfold clearAllReady at h
    cases hsi : st i with
    | none => rw [hsi] at h; cases h
    | some s => rw [hsi, Option.map_some'] at h; cases h; rfl
  have hmain : ∀ r' : Room, r'.state = .WAITING →
      (∀ i slot, r'.stations i = some slot → slot.ready = false) →
      (maybeApplyPendingCompaction r').state = .WAITING
      ∧ (∀ i slot, (maybeApplyPendingCompaction r').stations i = some slot →
          slot.ready = false)
      ∧ (maybeApplyPendingCompaction r').startedAt = r'.startedAt
      ∧ (maybeApplyPendingCompaction r').timeLeft = r'.timeLeft
      ∧ (maybeApplyPendingCompaction r').warned30 = r'.warned30
      ∧ (maybeApplyPendingCompaction r').warned60 = r'.warned60
      ∧ (maybeApplyPendingCompaction r').interval = r'.interval
      ∧ (maybeApplyPendingCompaction r').pendingCompaction = false
      ∧ (r'.pendingCompaction = false →
          (maybeApplyPendingCompaction r').stationsCount = r'.stationsCount)
      ∧ (r'.pendingCompaction = true →
          (maybeApplyPendingCompaction r').stationsCount =
            tailNewCount r'.stations r'.stationsCount) := by
    intro r' hw hrd
    unfold maybeApplyPendingCompaction
    rw [if_neg (by simp [hw])]
    by_cases hp : r'.pendingCompaction
    · rw [if_neg (by simp [hp])]
      obtain ⟨c1, c2, c3, c4, c5, c6, c7, _c8, _c9, _c10, c11⟩ := tailCompact_proj r' hw
      refine ⟨c1, ?_, c3, c4, c5, c6, c7, rfl, ?_, fun _ => c2⟩
      · intro i slot h
        dsimp only at h
        exact hrd i slot (c11 i slot h)
      · intro hfalse; rw [hfalse] at hp; cases hp
    · rw [if_pos (by simp [hp])]
      refine ⟨hw, hrd, rfl, rfl, rfl, rfl, rfl, by simpa using hp, fun _ => rfl, ?_⟩
      intro htrue; rw [htrue] at hp; exact absurd rfl hp
  have hbase := hmain
    ({ { r with interval := false } with stations := clearAllReady ({ r with interval := false } : Room).stations, state := RoomState.WAITING, startedAt := none, timeLeft := none, warned30 := false, warned60 := false } : Room)
    rfl (hready r.stations)
  obtain ⟨c1, c2, c3, c4, c5, c6, c7, c8, c9, c10⟩ := hbase
  have hdef : centralResetRoom r =
      maybeApplyPendingCompaction ({ { r with interval := false } with stations := clearAllReady ({ r with interval := false } : Room).stations, state := RoomState.WAITING, startedAt := none, timeLeft := none, warned30 := false, warned60 := false } : Room) := rfl
  rw [hdef]
  refine ⟨c1, c2, c3, c4, c5, c6, c7, c8, c9, c10, ?_⟩
  rw [← hdef]
  exact reset_fixedpoint _ c1 c7 c8 c3 c4 c5 c6 c2

/-- Witness for C8: resetting `exRun` (a RUNNING room) lands in WAITING with
no pending compaction; shown by the pending-false count conjunct. -/
theorem resetRoom_spec_witness :
    (centralResetRoom exRun).state = .WAITING ∧
    (centralResetRoom exRun).stationsCount = exRun.stationsCount :=
  ⟨(resetRoom_spec exRun).1, (resetRoom_spec exRun).2.2.2.2.2.2.2.2.1 rfl⟩

/-- Witness for C10: client `"a"` re-claims its own slot 1 in `exW`. -/
theorem claimStation_reclaim_spec_witness :
    ∃ r', claimStation exW "a" 1 = .ok r'
      ∧ r'.bindings = exW.bindings
      ∧ (∀ i, ownerAt r' i = ownerAt exW i)
      ∧ r'.stations 1 = some { slotA with connected := true }
      ∧ (∀ i, i ≠ 1 → r'.stations i = exW.stations i) :=
  claimStation_reclaim_spec exW "a" 1 slotA inv_exW rfl rfl

/-! ## Claim C3: one-shot warnings over tick sequences -/

/-- Accumulated outcome of a sequence of ticks: final room and how many times
each callback fired. -/
structure RunOut where
  room : Room
  w60 : Nat
  w30 : Nat
  up : Nat

/-- One accumulation step of `runTicks`. -/
def runStep (o : RunOut) (t : Int) : RunOut :=
  let p := tick o.room t
  { room := p.1,
    w60 := o.w60 + (if p.2.warn60 then 1 else 0),
    w30 := o.w30 + (if p.2.warn30 then 1 else 0),
    up := o.up + (if p.2.timeUp then 1 else 0) }

/-- Run `tick` at each listed time, counting callback firings. -/
def runTicks (r : Room) (times : List Int) : RunOut :=
  times.foldl runStep ⟨r, 0, 0, 0⟩

/-- The per-second tick schedule `setInterval(…, 1000)` produces after a round
starts at `st`: ticks at `st + 1000·k` for `k = 1..n`. -/
def secondTicks (st : Int) (n : Nat) : List Int :=
  (List.range' 1 n).map fun k : Nat => st + 1000 * (k : Int)

theorem tick_dur (r : Room) (t : Int) :
    (tick r t).1.roundDurationSec = r.roundDurationSec := by
  unfold tick
  split
  · rfl
  · split
    · rfl
    · dsimp only
      split <;> rfl

theorem tick_warned60 (r : Room) (t : Int) :
    (tick r t).1.warned60 = (r.warned60 || (tick r t).2.warn60) := by
  unfold tick
  split
  · simp
  · split
    · simp
    · dsimp only
      split <;> rfl

theorem tick_warned30 (r : Room) (t : Int) :
    (tick r t).1.warned30 = (r.warned30 || (tick r t).2.warn30) := by
  unfold tick
  split
  · simp
  · split
    · simp
    · dsimp only
      split <;> rfl

/-- A tick can only fire the warn-60 callback if the latch was still clear. -/
theorem tick_warn60_latch (r : Room) (t : Int) :
    (tick r t).2.warn60 = true → r.warned60 = false := by
  unfold tick
  split
  · intro h; cases h
  · split
    · intro h; cases h
    · dsimp only
      split <;>
        · intro h
          simp at h
          cases hw : r.warned60
          · rfl
          · rw [hw] at h; simp at h

theorem tick_warn30_latch (r : Room) (t : Int) :
    (tick r t).2.warn30 = true → r.warned30 = false := by
  unfold tick
  split
  · intro h; cases h
  · split
    · intro h; cases h
    · dsimp only
      split <;>
        · intro h
          simp at h
          cases hw : r.warned30
          · rfl
          · rw [hw] at h; simp at h

/-- Full description of a single tick on a RUNNING room with a start stamp:
the recomputed `timeLeft` and the three fired flags. -/
theorem tick_out (r : Room) (t st : Int) (hrun : r.state = .RUNNING)
    (hst : r.startedAt = some st) :
    (tick r t).1.timeLeft =
        some (max 0 (r.roundDurationSec - (t - st).fdiv 1000))
    ∧ (tick r t).2.warn60 =
        (!r.warned60 && decide (r.roundDurationSec ≥ 60) &&
          decide (max 0 (r.roundDurationSec - (t - st).fdiv 1000) = 60))
    ∧ (tick r t).2.warn30 =
        (!r.warned30 &&
          decide (max 0 (r.roundDurationSec - (t - st).fdiv 1000) = 30) &&
          decide (r.roundDurationSec > 30))
    ∧ (tick r t).2.timeUp =
        decide (max 0 (r.roundDurationSec - (t - st).fdiv 1000) = 0) := by
  unfold tick
  rw [if_neg (by simp [hrun]), hst]
  dsimp only
  split
  · rename_i h0
    exact ⟨rfl, rfl, rfl, by simp [h0]⟩
  · rename_i h0
    exact ⟨rfl, rfl, rfl, by simp [h0]⟩

/-- A tick outside RUNNING (or without a start stamp) fires nothing and
changes nothing. -/
theorem tick_noop (r : Room) (t : Int)
    (h : r.state ≠ .RUNNING ∨ r.startedAt = none) :
    tick r t = (r, ⟨false, false, false⟩) := by
  unfold tick
  rcases h with h | h
  · rw [if_pos (by simp [h])]
  · by_cases hrun : r.state = .RUNNING
    · rw [if_neg (by simp [hrun]), h]
    · rw [if_pos (by simp [hrun])]

/-- "Only when": a tick fires warn-60 only with `timeLeft = 60` (as recomputed
by that tick) and `roundDurationSec ≥ 60`. -/
theorem tick_warn60_only (r : Room) (t : Int) :
    (tick r t).2.warn60 = true →
      (tick r t).1.timeLeft = some 60 ∧ r.roundDurationSec ≥ 60 := by
  intro h
  by_cases hrun : r.state = .RUNNING
  · cases hst : r.startedAt with
    | none => rw [tick_noop r t (Or.inr hst)] at h; cases h
    | some st =>
      obtain ⟨h1, h2, _, _⟩ := tick_out r t st hrun hst
      rw [h2] at h
      simp only [Bool.and_eq_true, Bool.not_eq_true', decide_eq_true_eq] at h
      obtain ⟨⟨hw, hd⟩, htl⟩ := h
      rw [h1, htl]
      exact ⟨rfl, hd⟩
  · rw [tick_noop r t (Or.inl hrun)] at h; cases h

/-- "Only when": a tick fires warn-30 only with `timeLeft = 30` and
`roundDurationSec > 30`. -/
theorem tick_warn30_only (r : Room) (t : Int) :
    (tick r t).2.warn30 = true →
      (tick r t).1.timeLeft = some 30 ∧ r.roundDurationSec > 30 := by
  intro h
  by_cases hrun : r.state = .RUNNING
  · cases hst : r.startedAt with
    | none => rw [tick_noop r t (Or.inr hst)] at h; cases h
    | some st =>
      obtain ⟨h1, _, h3, _⟩ := tick_out r t st hrun hst
      rw [h3] at h
      simp only [Bool.and_eq_true, Bool.not_eq_true', decide_eq_true_eq] at h
      obtain ⟨⟨hw, htl⟩, hd⟩ := h
      rw [h1, htl]
      exact ⟨rfl, hd⟩
  · rw [tick_noop r t (Or.inl hrun)] at h; cases h

theorem runStep_eq (o : RunOut) (t : Int) :
    runStep o t = ⟨(tick o.room t).1,
      o.w60 + (if (tick o.room t).2.warn60 then 1 else 0),
      o.w30 + (if (tick o.room t).2.warn30 then 1 else 0),
      o.up + (if (tick o.room t).2.timeUp then 1 else 0)⟩ := rfl

/-- The counter components of the fold are affine in the initial counters. -/
theorem foldl_runStep_shift (ts : List Int) :
    ∀ (room : Room) (a b c : Nat),
      (ts.foldl runStep ⟨room, a, b, c⟩).room =
          (ts.foldl runStep ⟨room, 0, 0, 0⟩).room
      ∧ (ts.foldl runStep ⟨room, a, b, c⟩).w60 =
          a + (ts.foldl runStep ⟨room, 0, 0, 0⟩).w60
      ∧ (ts.foldl runStep ⟨room, a, b, c⟩).w30 =
          b + (ts.foldl runStep ⟨room, 0, 0, 0⟩).w30
      ∧ (ts.foldl runStep ⟨room, a, b, c⟩).up =
          c + (ts.foldl runStep ⟨room, 0, 0, 0⟩).up := by
  induction ts with
  | nil => intro room a b c; exact ⟨rfl, rfl, rfl, rfl⟩
  | cons t ts ih =>
    intro room a b c
    rw [List.foldl_cons, List.foldl_cons, runStep_eq, runStep_eq]
    obtain ⟨f1, f2, f3, f4⟩ := ih (tick room t).1
      (a + (if (tick room t).2.warn60 then 1 else 0))
      (b + (if (tick room t).2.warn30 then 1 else 0))
      (c + (if (tick room t).2.timeUp then 1 else 0))
    obtain ⟨g1, g2, g3, g4⟩ := ih (tick room t).1
      (0 + (if (tick room t).2.warn60 then 1 else 0))
      (0 + (if (tick room t).2.warn30 then 1 else 0))
      (0 + (if (tick room t).2.timeUp then 1 else 0))
    exact ⟨f1.trans g1.symm, by rw [f2, g2]; omega, by rw [f3, g3]; omega,
      by rw [f4, g4]; omega⟩

theorem runTicks_cons (r : Room) (t : Int) (ts : List Int) :
    (runTicks r (t :: ts)).room = (runTicks (tick r t).1 ts).room
    ∧ (runTicks r (t :: ts)).w60 =
        (if (tick r t).2.warn60 then 1 else 0) + (runTicks (tick r t).1 ts).w60
    ∧ (runTicks r (t :: ts)).w30 =
        (if (tick r t).2.warn30 then 1 else 0) + (runTicks (tick r t).1 ts).w30
    ∧ (runTicks r (t :: ts)).up =
        (if (tick r t).2.timeUp then 1 else 0) + (runTicks (tick r t).1 ts).up := by
  unfold runTicks
  rw [List.foldl_cons, runStep_eq]
  obtain ⟨f1, f2, f3, f4⟩ := foldl_runStep_shift ts (tick r t).1
    (0 + (if (tick r t).2.warn60 then 1 else 0))
    (0 + (if (tick r t).2.warn30 then 1 else 0))
    (0 + (if (tick r t).2.timeUp then 1 else 0))
  exact ⟨f1, by rw [f2]; omega, by rw [f3]; omega, by rw [f4]; omega⟩

/-- Appending one tick to a run just applies one more step. -/
theorem runTicks_concat (r : Room) (ts : List Int) (t : Int) :
    runTicks r (ts ++ [t]) = runStep (runTicks r ts) t := by
  unfold runTicks
  rw [List.foldl_append]
  rfl

/-- Once the warn-60 latch is set, no later tick ever fires warn-60 again. -/
theorem runTicks_w60_latched (ts : List Int) :
    ∀ r : Room, r.warned60 = true →
      (runTicks r ts).w60 = 0 ∧ (runTicks r ts).room.warned60 = true := by
  induction ts with
  | nil => intro r hw; exact ⟨rfl, hw⟩
  | cons t ts ih =>
    intro r hw
    have hfire : (tick r t).2.warn60 = false := by
      cases hf : (tick r t).2.warn60
      · rfl
      · rw [tick_warn60_latch r t hf] at hw; cases hw
    have hw' : (tick r t).1.warned60 = true := by
      rw [tick_warned60, hw]; rfl
    obtain ⟨i1, i2⟩ := ih (tick r t).1 hw'
    obtain ⟨c1, c2, c3, c4⟩ := runTicks_cons r t ts
    exact ⟨by rw [c2, hfire, i1]; simp, by rw [c1, i2]⟩

theorem runTicks_w30_latched (ts : List Int) :
    ∀ r : Room, r.warned30 = true →
      (runTicks r ts).w30 = 0 ∧ (runTicks r ts).room.warned30 = true := by
  induction ts with
  | nil => intro r hw; exact ⟨rfl, hw⟩
  | cons t ts ih =>
    intro r hw
    have hfire : (tick r t).2.warn30 = false := by
      cases hf : (tick r t).2.warn30
      · rfl
      · rw [tick_warn30_latch r t hf] at hw; cases hw
    have hw' : (tick r t).1.warned30 = true := by
      rw [tick_warned30, hw]; rfl
    obtain ⟨i1, i2⟩ := ih (tick r t).1 hw'
    obtain ⟨c1, c2, c3, c4⟩ := runTicks_cons r t ts
    exact ⟨by rw [c3, hfire, i1]; simp, by rw [c1, i2]⟩

/-- At-most-once: over any tick sequence whatsoever, warn-60 fires at most
once. -/
theorem runTicks_w60_le_one (ts : List Int) :
    ∀ r : Room, (runTicks r ts).w60 ≤ 1 := by
  induction ts with
  | nil => intro r; exact Nat.zero_le 1
  | cons t ts ih =>
    intro r
    obtain ⟨c1, c2, c3, c4⟩ := runTicks_cons r t ts
    rw [c2]
    cases hf : (tick r t).2.warn60
    · simpa using ih (tick r t).1
    · have hw' : (tick r t).1.warned60 = true := by
        rw [tick_warned60, hf]; simp
      have hl := (runTicks_w60_latched ts (tick r t).1 hw').1
      rw [hl]
      simp

theorem runTicks_w30_le_one (ts : List Int) :
    ∀ r : Room, (runTicks r ts).w30 ≤ 1 := by
  induction ts with
  | nil => intro r; exact Nat.zero_le 1
  | cons t ts ih =>
    intro r
    obtain ⟨c1, c2, c3, c4⟩ := runTicks_cons r t ts
    rw [c3]
    cases hf : (tick r t).2.warn30
    · simpa using ih (tick r t).1
    · have hw' : (tick r t).1.warned30 = true := by
        rw [tick_warned30, hf]; simp
      have hl := (runTicks_w30_latched ts (tick r t).1 hw').1
      rw [hl]
      simp

/-- With `roundDurationSec ≤ 30`, no warning ever fires, for any tick
sequence. -/
theorem runTicks_no_warn_small (ts : List Int) :
    ∀ r : Room, r.roundDurationSec ≤ 30 →
      (runTicks r ts).w60 = 0 ∧ (runTicks r ts).w30 = 0 := by
  induction ts with
  | nil => intro r _; exact ⟨rfl, rfl⟩
  | cons t ts ih =>
    intro r hd
    have hf60 : (tick r t).2.warn60 = false := by
      cases hf : (tick r t).2.warn60
      · rfl
      · have := (tick_warn60_only r t hf).2; omega
    have hf30 : (tick r t).2.warn30 = false := by
      cases hf : (tick r t).2.warn30
      · rfl
      · have := (tick_warn30_only r t hf).2; omega
    have hd' : (tick r t).1.roundDurationSec ≤ 30 := by rw [tick_dur]; exact hd
    obtain ⟨i1, i2⟩ := ih (tick r t).1 hd'
    obtain ⟨c1, c2, c3, c4⟩ := runTicks_cons r t ts
    exact ⟨by rw [c2, hf60, i1]; simp, by rw [c3, hf30, i2]; simp⟩

/-- All state components of one tick on a RUNNING room, in terms of the
recomputed remaining time `M`. -/
theorem tick_step_proj (r : Room) (t st M : Int) (hrun : r.state = .RUNNING)
    (hst : r.startedAt = some st)
    (hM : M = max 0 (r.roundDurationSec - (t - st).fdiv 1000)) :
    (tick r t).1.state = (if M = 0 then RoomState.ENDED else RoomState.RUNNING)
    ∧ (tick r t).1.startedAt = some st
    ∧ (tick r t).1.roundDurationSec = r.roundDurationSec
    ∧ (tick r t).1.timeLeft = some M
    ∧ (tick r t).1.warned60 =
        (r.warned60 || (!r.warned60 && decide (r.roundDurationSec ≥ 60) &&
          decide (M = 60)))
    ∧ (tick r t).1.warned30 =
        (r.warned30 || (!r.warned30 && decide (M = 30) &&
          decide (r.roundDurationSec > 30)))
    ∧ (tick r t).2.warn60 =
        (!r.warned60 && decide (r.roundDurationSec ≥ 60) && decide (M = 60))
    ∧ (tick r t).2.warn30 =
        (!r.warned30 && decide (M = 30) && decide (r.roundDurationSec > 30))
    ∧ (tick r t).2.timeUp = decide (M = 0) := by
  subst hM
  unfold tick
  rw [if_neg (by simp [hrun]), hst]
  dsimp only
  split
  · rename_i h0
    rw [h0]
    exact ⟨by simp, rfl, rfl, rfl, rfl, rfl, rfl, rfl, by simp⟩
  · rename_i h0
    exact ⟨by simp [h0, hrun], rfl, rfl, rfl, rfl, rfl, rfl, rfl, by simp [h0]⟩

/-- The per-second schedule grows by one tick at its end. -/
theorem secondTicks_succ (st : Int) (m : Nat) :
    secondTicks st (m + 1) =
      secondTicks st m ++ [st + 1000 * ((1 + m : Nat) : Int)] := by
  unfold secondTicks
  rw [List.range'_1_concat, List.map_append]
  rfl

/-- State and firing counts after running the per-second schedule for `m`
ticks on a freshly started round of `n` seconds. -/
theorem runTicks_schedule (st : Int) (n : Nat) (hn : 0 < n) :
    ∀ (m : Nat), m ≤ n → ∀ r : Room,
      r.state = .RUNNING → r.startedAt = some st →
      r.roundDurationSec = (n : Int) →
      r.warned60 = false → r.warned30 = false →
      (runTicks r (secondTicks st m)).room.state =
          (if m < n then RoomState.RUNNING else RoomState.ENDED)
      ∧ (runTicks r (secondTicks st m)).room.startedAt = some st
      ∧ (runTicks r (secondTicks st m)).room.roundDurationSec = (n : Int)
      ∧ (runTicks r (secondTicks st m)).room.warned60 =
          decide (61 ≤ n ∧ n - 60 ≤ m)
      ∧ (runTicks r (secondTicks st m)).room.warned30 =
          decide (31 ≤ n ∧ n - 30 ≤ m)
      ∧ (runTicks r (secondTicks st m)).w60 =
          (if 61 ≤ n ∧ n - 60 ≤ m then 1 else 0)
      ∧ (runTicks r (secondTicks st m)).w30 =
          (if 31 ≤ n ∧ n - 30 ≤ m then 1 else 0)
      ∧ (runTicks r (secondTicks st m)).up = (if n ≤ m then 1 else 0) := by
  intro m
  induction m with
  | zero =>
    intro _ r hrun hst hdur hw60 hw30
    refine ⟨?_, hst, hdur, ?_, ?_, ?_, ?_, ?_⟩
    · show r.state = _
      rw [if_pos hn]; exact hrun
    · show r.warned60 = _
      rw [hw60]; symm
      simp only [decide_eq_false_iff_not]
      omega
    · show r.warned30 = _
      rw [hw30]; symm
      simp only [decide_eq_false_iff_not]
      omega
    · show (0 : Nat) = _
      rw [if_neg (by omega)]
    · show (0 : Nat) = _
      rw [if_neg (by omega)]
    · show (0 : Nat) = _
      rw [if_neg (by omega)]
  | succ m ih =>
    intro hm1 r hrun hst hdur hw60 hw30
    have hm : m ≤ n := by omega
    have hmn : m < n := by omega
    obtain ⟨i1, i2, i3, i4, i5, i6, i7, i8⟩ := ih hm r hrun hst hdur hw60 hw30
    rw [secondTicks_succ, runTicks_concat, runStep_eq]
    set o := runTicks r (secondTicks st m) with ho
    have horun : o.room.state = .RUNNING := by rw [i1, if_pos hmn]
    have hM : (((n - (m + 1) : Nat) : Int)) =
        max 0 (o.room.roundDurationSec -
          ((st + 1000 * ((1 + m : Nat) : Int)) - st).fdiv 1000) := by
      have hc : (st + 1000 * ((1 + m : Nat) : Int)) - st =
          1000 * ((1 + m : Nat) : Int) := by ring
      rw [i3, hc, Int.mul_fdiv_cancel_left _ (by norm_num)]
      omega
    obtain ⟨p1, p2, p3, p4, p5, p6, p7, p8, p9⟩ :=
      tick_step_proj o.room (st + 1000 * ((1 + m : Nat) : Int)) st
        ((n - (m + 1) : Nat) : Int) horun i2 hM
    dsimp only
    rw [p7, p8, p9, i4, i5, i3]
    refine ⟨?_, p2, p3.trans i3, ?_, ?_, ?_, ?_, ?_⟩
    · rw [p1]
      by_cases hend : n = m + 1
      · rw [if_pos (by omega), if_neg (by omega)]
      · rw [if_neg (by omega), if_pos (by omega)]
    · rw [p5, i4, i3, Bool.eq_iff_iff]
      simp only [Bool.or_eq_true, Bool.and_eq_true, Bool.not_eq_true',
        decide_eq_true_eq, decide_eq_false_iff_not]
      omega
    · rw [p6, i5, i3, Bool.eq_iff_iff]
      simp only [Bool.or_eq_true, Bool.and_eq_true, Bool.not_eq_true',
        decide_eq_true_eq, decide_eq_false_iff_not]
      omega
    · rw [i6]
      simp only [Bool.and_eq_true, Bool.not_eq_true', decide_eq_true_eq,
        decide_eq_false_iff_not]
      split_ifs <;> omega
    · rw [i7]
      simp only [Bool.and_eq_true, Bool.not_eq_true', decide_eq_true_eq,
        decide_eq_false_iff_not]
      split_ifs <;> omega
    · rw [i8]
      simp only [decide_eq_true_eq]
      split_ifs <;> omega

/-- `exRun` with a 60-second round. -/
def ex60 : Room := { exRun with roundDurationSec := 60 }

/-- `exRun` with a 61-second round. -/
def ex61 : Room := { exRun with roundDurationSec := 61 }

/-- Counterexample to C3 as stated: for `roundDurationSec = 60` (which the
claim includes, demanding exactly one warn-60 firing since `60 ≥ 60`), the
per-second tick schedule of the whole round fires warn-60 zero times: the
first tick happens at elapsed 1s, `timeLeft = 59`, so `timeLeft == 60` is
never observed. -/
theorem warn60_boundary_counterexample :
    ex60.roundDurationSec ≥ 60
    ∧ ex60.state = .RUNNING ∧ ex60.warned60 = false
    ∧ (runTicks ex60 (secondTicks 0 60)).w60 = 0 := by
  refine ⟨by norm_num [ex60, exRun, exW], rfl, rfl, ?_⟩
  have h := (runTicks_schedule 0 60 (by omega) 60 (Nat.le_refl 60) ex60
    rfl rfl rfl rfl rfl).2.2.2.2.2.1
  rw [h, if_neg (by omega)]

/-- C3 (amended): warn-60 and warn-30 each fire at most once over any tick
sequence; a tick fires warn-60 only when it recomputes `timeLeft = 60` and
`roundDurationSec ≥ 60`, and warn-30 only when `timeLeft = 30` and
`roundDurationSec > 30`; with `roundDurationSec ≤ 30` no warning ever fires;
and under the per-second tick schedule of a full round of `n` seconds,
warn-60 fires exactly once iff `n ≥ 61` (not the claimed `n ≥ 60`: at
`n = 60` the first tick already sees `timeLeft = 59`) and warn-30 exactly
once iff `n ≥ 31`. -/
theorem warn_oneshot_spec :
    (∀ (r : Room) (ts : List Int),
        (runTicks r ts).w60 ≤ 1 ∧ (runTicks r ts).w30 ≤ 1)
    ∧ (∀ (r : Room) (t : Int), (tick r t).2.warn60 = true →
        (tick r t).1.timeLeft = some 60 ∧ r.roundDurationSec ≥ 60)
    ∧ (∀ (r : Room) (t : Int), (tick r t).2.warn30 = true →
        (tick r t).1.timeLeft = some 30 ∧ r.roundDurationSec > 30)
    ∧ (∀ (r : Room) (ts : List Int), r.roundDurationSec ≤ 30 →
        (runTicks r ts).w60 = 0 ∧ (runTicks r ts).w30 = 0)
    ∧ (∀ (st : Int) (n : Nat) (r : Room), 0 < n →
        r.state = .RUNNING → r.startedAt = some st →
        r.roundDurationSec = (n : Int) →
        r.warned60 = false → r.warned30 = false →
        (runTicks r (secondTicks st n)).w60 = (if 61 ≤ n then 1 else 0)
        ∧ (runTicks r (secondTicks st n)).w30 = (if 31 ≤ n then 1 else 0)) := by
  refine ⟨fun r ts => ⟨runTicks_w60_le_one ts r, runTicks_w30_le_one ts r⟩,
    tick_warn60_only, tick_warn30_only,
    fun r ts h => runTicks_no_warn_small ts r h,
    ?_⟩
  intro st n r hn hrun hst hdur hw60 hw30
  obtain ⟨_, _, _, _, _, h6, h7, _⟩ :=
    runTicks_schedule st n hn n (Nat.le_refl n) r hrun hst hdur hw60 hw30
  constructor
  · rw [h6]; split_ifs <;> omega
  · rw [h7]; split_ifs <;> omega

/-- Witness for C3 (amended): with a 61-second round both warnings fire
exactly once over the full per-second schedule. -/
theorem warn_oneshot_spec_witness :
    (runTicks ex61 (secondTicks 0 61)).w60 = 1
    ∧ (runTicks ex61 (secondTicks 0 61)).w30 = 1 := by
  obtain ⟨h1, h2⟩ := warn_oneshot_spec.2.2.2.2 0 61 ex61 (by omega)
    rfl rfl rfl rfl rfl
  exact ⟨by rw [h1, if_pos (by omega)], by rw [h2, if_pos (by omega)]⟩

/-! ## Characterizing `renumberCompactIfWaiting`'s shift loop -/

/-- The slot object the shift loop reads at position `i`
(`room.stations.get(i) ?? { id: i, ready: false, connected: false }`). -/
def slotAtD (r : Room) (i : Nat) : StationSlot :=
  (r.stations i).getD (freshSlot i)

/-- The slot the shift loop writes at position `p`: position `p+1`'s
owner/ready/connected with `id := p`. -/
def shiftedSlot (r : Room) (p : Nat) : StationSlot :=
  { id := p, ownerClientId := (slotAtD r (p + 1)).ownerClientId,
    ready := (slotAtD r (p + 1)).ready,
    connected := (slotAtD r (p + 1)).connected }

theorem ownerAt_eq (r : Room) (i : Nat) :
    ownerAt r i = (slotAtD r i).ownerClientId := by
  unfold ownerAt slotAtD
  cases r.stations i with
  | none => rfl
  | some s => rfl

/-- The shift loop of `renumberCompactIfWaiting` as a fold. -/
def shiftFold (r0 : Room) (k J : Nat) : Room × List Renum :=
  (List.range' k J).foldl shiftStep (r0, [])

theorem shiftFold_succ (r0 : Room) (k J : Nat) :
    shiftFold r0 k (J + 1) = shiftStep (shiftFold r0 k J) (k + J) := by
  unfold shiftFold
  rw [List.range'_1_concat, List.foldl_append]
  rfl

/-- The remap entry the loop reports for loop index `i` (if any). -/
def renumEntry (r0 : Room) (i : Nat) : Option Renum :=
  match ownerAt r0 (i + 1) with
  | none => none
  | some c => if c = "" then none else some ⟨c, i + 1, i⟩

/-- Full characterization of the shift loop: positions `k..k+J-1` receive the
slot contents shifted down from `k+1..k+J`, owners' bindings are moved along,
everything else is untouched, and the reported remap list is exactly the
owners of the shifted range.  The two hypotheses are the parts of the room
invariant the loop relies on: owners in the shifted range are bound to their
slot, and no client owns two slots of the range. -/
theorem shiftFold_spec (r0 : Room) (k : Nat) :
    ∀ J : Nat,
      (∀ i c, k ≤ i → i < k + J → c ≠ "" → ownerAt r0 (i + 1) = some c →
        r0.bindings c = some (i + 1)) →
      (∀ i i' c, k ≤ i → i < k + J → k ≤ i' → i' < k + J → c ≠ "" →
        ownerAt r0 (i + 1) = some c → ownerAt r0 (i' + 1) = some c → i = i') →
      (shiftFold r0 k J).1.state = r0.state
      ∧ (shiftFold r0 k J).1.stationsCount = r0.stationsCount
      ∧ (∀ p, k ≤ p → p < k + J →
          (shiftFold r0 k J).1.stations p = some (shiftedSlot r0 p))
      ∧ (∀ p, ¬(k ≤ p ∧ p < k + J) →
          (shiftFold r0 k J).1.stations p = r0.stations p)
      ∧ (∀ c i, k ≤ i → i < k + J → c ≠ "" → ownerAt r0 (i + 1) = some c →
          (shiftFold r0 k J).1.bindings c = some i)
      ∧ (∀ c, (∀ i, k ≤ i → i < k + J →
            ¬(ownerAt r0 (i + 1) = some c ∧ c ≠ "")) →
          (shiftFold r0 k J).1.bindings c = r0.bindings c)
      ∧ (shiftFold r0 k J).2 =
          (List.range' k J).filterMap (renumEntry r0) := by
  intro J
  induction J with
  | zero =>
    intro _ _
    refine ⟨rfl, rfl, ?_, ?_, ?_, ?_, rfl⟩
    · intro p h1 h2; omega
    · intro p _; rfl
    · intro c i h1 h2; omega
    · intro c _; rfl
  | succ J ih =>
    intro hbind hinj
    obtain ⟨i1, i2, i3, i4, i5, i6, i7⟩ := ih
      (fun i c h1 h2 h3 h4 => hbind i c h1 (by omega) h3 h4)
      (fun i i' c h1 h2 h3 h4 h5 h6 h7 =>
        hinj i i' c h1 (by omega) h3 (by omega) h5 h6 h7)
    rw [shiftFold_succ]
    have hsrc : ((shiftFold r0 k J).1.stations (k + J + 1)).getD
        (freshSlot (k + J + 1)) = slotAtD r0 (k + J + 1) := by
      rw [i4 (k + J + 1) (by omega)]; rfl
    have hlist : (List.range' k (J + 1)).filterMap (renumEntry r0) =
        (List.range' k J).filterMap (renumEntry r0) ++
          (renumEntry r0 (k + J)).toList := by
      rw [List.range'_1_concat, List.filterMap_append]
      cases h : renumEntry r0 (k + J) <;> simp [h]
    unfold shiftStep
    dsimp only
    rw [hsrc]
    cases hown : (slotAtD r0 (k + J + 1)).ownerClientId with
    | none =>
      dsimp only
      refine ⟨i1, i2, ?_, ?_, ?_, ?_, ?_⟩
      · intro p h1 h2
        by_cases hp : p = k + J
        · subst hp
          rw [mset_self]
          unfold shiftedSlot
          rw [hown]
        · rw [mset_ne _ _ _ _ hp]
          exact i3 p h1 (by omega)
      · intro p hp
        rw [mset_ne _ _ _ _ (by omega)]
        exact i4 p (by omega)
      · intro c i h1 h2 h3 h4
        by_cases hi : i = k + J
        · subst hi
          rw [ownerAt_eq, hown] at h4
          cases h4
        · exact i5 c i h1 (by omega) h3 h4
      · intro c hc
        exact i6 c fun i hi1 hi2 => hc i hi1 (by omega)
      · rw [hlist, i7]
        have : renumEntry r0 (k + J) = none := by
          unfold renumEntry
          rw [ownerAt_eq, hown]
        rw [this]
        simp
    | some cid =>
      dsimp only
      by_cases hcid : cid = ""
      · subst hcid
        rw [if_pos rfl]
        dsimp only
        refine ⟨i1, i2, ?_, ?_, ?_, ?_, ?_⟩
        · intro p h1 h2
          by_cases hp : p = k + J
          · subst hp
            rw [mset_self]
            unfold shiftedSlot
            rw [hown]
          · rw [mset_ne _ _ _ _ hp]
            exact i3 p h1 (by omega)
        · intro p hp
          rw [mset_ne _ _ _ _ (by omega)]
          exact i4 p (by omega)
        · intro c i h1 h2 h3 h4
          by_cases hi : i = k + J
          · subst hi
            rw [ownerAt_eq, hown] at h4
            cases h4
            exact absurd rfl h3
          · exact i5 c i h1 (by omega) h3 h4
        · intro c hc
          exact i6 c fun i hi1 hi2 => hc i hi1 (by omega)
        · rw [hlist, i7]
          have : renumEntry r0 (k + J) = none := by
            unfold renumEntry
            rw [ownerAt_eq, hown]
            rfl
          rw [this]
          simp
      · rw [if_neg hcid]
        have hnoprev : ∀ i, k ≤ i → i < k + J →
            ¬(ownerAt r0 (i + 1) = some cid ∧ cid ≠ "") := by
          rintro i hi1 hi2 ⟨ho, -⟩
          have := hinj i (k + J) cid hi1 (by omega) (by omega) (by omega) hcid
            ho (by rw [ownerAt_eq, hown])
          omega
        have hcur : (shiftFold r0 k J).1.bindings cid = some (k + J + 1) := by
          rw [i6 cid hnoprev]
          exact hbind (k + J) cid (by omega) (by omega) hcid
            (by rw [ownerAt_eq, hown])
        rw [if_pos hcur]
        dsimp only
        refine ⟨i1, i2, ?_, ?_, ?_, ?_, ?_⟩
        · intro p h1 h2
          by_cases hp : p = k + J
          · subst hp
            rw [mset_self]
            unfold shiftedSlot
            rw [hown]
          · rw [mset_ne _ _ _ _ hp]
            exact i3 p h1 (by omega)
        · intro p hp
          rw [mset_ne _ _ _ _ (by omega)]
          exact i4 p (by omega)
        · intro c i h1 h2 h3 h4
          by_cases hi : i = k + J
          · subst hi
            rw [ownerAt_eq, hown] at h4
            cases h4
            rw [mset_self]
          · have hc : c ≠ cid := by
              intro hceq
              subst hceq
              have := hinj i (k + J) c h1 (by omega) (by omega) (by omega) h3
                h4 (by rw [ownerAt_eq, hown])
              omega
            rw [mset_ne _ _ _ _ hc]
            exact i5 c i h1 (by omega) h3 h4
        · intro c hc
          have hcc : c ≠ cid := by
            intro hceq
            subst hceq
            exact hc (k + J) (by omega) (by omega)
              ⟨by rw [ownerAt_eq, hown], hcid⟩
          rw [mset_ne _ _ _ _ hcc]
          exact i6 c fun i hi1 hi2 => hc i hi1 (by omega)
        · rw [hlist, i7]
          have : renumEntry r0 (k + J) = some ⟨cid, k + J + 1, k + J⟩ := by
            unfold renumEntry
            rw [ownerAt_eq, hown]
            dsimp only
            rw [if_neg hcid]
          rw [this]
          rfl

theorem ownerAt_some_iff (r : Room) (i : Nat) (c : ClientId) :
    ownerAt r i = some c ↔
      ∃ s, r.stations i = some s ∧ s.ownerClientId = some c := by
  unfold ownerAt
  cases h : r.stations i with
  | none => simp
  | some s => simp

/-- Full characterization of `renumberCompactIfWaiting` on an
invariant-satisfying WAITING room removing an in-range slot `k`: slots
`k..count-1` receive the contents of `k+1..count` (ids rewritten), the top
slot is deleted, the count drops by one, shifted owners' bindings move down
with them, all other clients' bindings are untouched, and the reported remap
list is exactly the owners of the shifted range in ascending order. -/
theorem renumber_spec (r : Room) (k : Nat) (hinv : Inv r)
    (hw : r.state = .WAITING) (hk1 : 1 ≤ k) (hkc : k ≤ r.stationsCount) :
    (renumberCompactIfWaiting r k).1.stationsCount = r.stationsCount - 1
    ∧ (renumberCompactIfWaiting r k).1.state = .WAITING
    ∧ (∀ p, k ≤ p → p < r.stationsCount →
        (renumberCompactIfWaiting r k).1.stations p = some (shiftedSlot r p))
    ∧ (renumberCompactIfWaiting r k).1.stations r.stationsCount = none
    ∧ (∀ p, p < k → (renumberCompactIfWaiting r k).1.stations p = r.stations p)
    ∧ (∀ p, p > r.stationsCount →
        (renumberCompactIfWaiting r k).1.stations p = none)
    ∧ (∀ c i, k ≤ i → i < r.stationsCount → ownerAt r (i + 1) = some c →
        (renumberCompactIfWaiting r k).1.bindings c = some i)
    ∧ (∀ c, (∀ i, k + 1 ≤ i → i ≤ r.stationsCount → ownerAt r i ≠ some c) →
        (renumberCompactIfWaiting r k).1.bindings c = r.bindings c)
    ∧ (renumberCompactIfWaiting r k).2 =
        (List.range' k (r.stationsCount - k)).filterMap (renumEntry r) := by
  obtain ⟨hkeys, hbindok, hne, hbound⟩ := hinv
  have hsk : ∃ sk, r.stations k = some sk := by
    rw [← Option.isSome_iff_exists]
    exact (hkeys k).mpr ⟨hk1, hkc⟩
  obtain ⟨sk, hsk⟩ := hsk
  have hcomp : renumberCompactIfWaiting r k =
      (let r0 : Room := { r with stations := mset r.stations k { sk with ownerClientId := none, connected := false, ready := false } };
       let p := shiftFold r0 k (r.stationsCount - k);
       ({ p.1 with stations := mdel p.1.stations r.stationsCount,
                   stationsCount := r.stationsCount - 1 }, p.2)) := by
    unfold renumberCompactIfWaiting
    rw [if_neg (by simp [hw]), if_neg (by omega), hsk]
    rfl
  rw [hcomp]
  dsimp only
  set r0 : Room := { r with stations := mset r.stations k { sk with ownerClientId := none, connected := false, ready := false } } with hr0
  have hst0 : ∀ x, x ≠ k → r0.stations x = r.stations x := by
    intro x hx
    show mset r.stations k _ x = r.stations x
    exact mset_ne _ _ _ _ hx
  have hown0 : ∀ x, x ≠ k → ownerAt r0 x = ownerAt r x := by
    intro x hx
    unfold ownerAt
    rw [hst0 x hx]
  have hslotD0 : ∀ x, x ≠ k → slotAtD r0 x = slotAtD r x := by
    intro x hx
    unfold slotAtD
    rw [hst0 x hx]
  have hbb : r0.bindings = r.bindings := rfl
  have hJ : k + (r.stationsCount - k) = r.stationsCount := by omega
  obtain ⟨s1, s2, s3, s4, s5, s6, s7⟩ :=
    shiftFold_spec r0 k (r.stationsCount - k)
      (by
        intro i c h1 h2 h3 h4
        rw [hown0 (i + 1) (by omega)] at h4
        obtain ⟨sl, hsl, hosl⟩ := (ownerAt_some_iff r (i + 1) c).mp h4
        rw [hbb]
        exact (hbindok c (i + 1)).mpr ⟨sl, hsl, hosl⟩)
      (by
        intro i i' c h1 h2 h3 h4 h5 h6 h7
        rw [hown0 (i + 1) (by omega)] at h6
        rw [hown0 (i' + 1) (by omega)] at h7
        obtain ⟨sl, hsl, hosl⟩ := (ownerAt_some_iff r (i + 1) c).mp h6
        obtain ⟨sl', hsl', hosl'⟩ := (ownerAt_some_iff r (i' + 1) c).mp h7
        have hb1 : r.bindings c = some (i + 1) :=
          (hbindok c (i + 1)).mpr ⟨sl, hsl, hosl⟩
        have hb2 : r.bindings c = some (i' + 1) :=
          (hbindok c (i' + 1)).mpr ⟨sl', hsl', hosl'⟩
        rw [hb1] at hb2
        cases hb2
        rfl)
  refine ⟨rfl, ?_, ?_, ?_, ?_, ?_, ?_, ?_, ?_⟩
  · show (shiftFold r0 k (r.stationsCount - k)).1.state = _
    rw [s1]
    exact hw
  · intro p hp1 hp2
    show mdel (shiftFold r0 k (r.stationsCount - k)).1.stations r.stationsCount p = _
    rw [mdel_ne _ _ _ (by omega), s3 p hp1 (by omega)]
    unfold shiftedSlot
    rw [hslotD0 (p + 1) (by omega)]
  · show mdel (shiftFold r0 k (r.stationsCount - k)).1.stations r.stationsCount
        r.stationsCount = none
    exact mdel_self _ _
  · intro p hp
    show mdel (shiftFold r0 k (r.stationsCount - k)).1.stations r.stationsCount p = _
    rw [mdel_ne _ _ _ (by omega), s4 p (by omega), hst0 p (by omega)]
  · intro p hp
    show mdel (shiftFold r0 k (r.stationsCount - k)).1.stations r.stationsCount p = _
    rw [mdel_ne _ _ _ (by omega), s4 p (by omega), hst0 p (by omega)]
    rcases hsp : r.stations p with _ | sp
    · rfl
    · have := (hkeys p).mp (by simp [hsp])
      omega
  · intro c i h1 h2 h3
    obtain ⟨sl, hsl, hosl⟩ := (ownerAt_some_iff r (i + 1) c).mp h3
    have hcne : c ≠ "" := by
      intro hceq
      subst hceq
      exact hne (i + 1) sl hsl hosl
    show (shiftFold r0 k (r.stationsCount - k)).1.bindings c = some i
    exact s5 c i h1 (by omega) hcne (by rw [hown0 (i + 1) (by omega)]; exact h3)
  · intro c hc
    show (shiftFold r0 k (r.stationsCount - k)).1.bindings c = r.bindings c
    rw [s6 c ?_, hbb]
    intro i hi1 hi2
    rintro ⟨ho, -⟩
    rw [hown0 (i + 1) (by omega)] at ho
    exact hc (i + 1) (by omega) (by omega) ho
  · show (shiftFold r0 k (r.stationsCount - k)).2 = _
    rw [s7]
    apply List.filterMap_congr
    intro x hx
    rw [List.mem_range'] at hx
    obtain ⟨j, hj, rfl⟩ := hx
    unfold renumEntry
    rw [hown0 (k + 1 * j + 1) (by omega)]

/-! ## Invariant preservation, per operation -/

/-- Replacing a slot by one with the same owner keeps the invariant. -/
theorem inv_update_same_owner (r : Room) (s : Nat) (slot slot' : StationSlot)
    (hinv : Inv r) (hs : r.stations s = some slot)
    (ho : slot'.ownerClientId = slot.ownerClientId) :
    Inv { r with stations := mset r.stations s slot' } := by
  obtain ⟨hk, hb, hn, hc⟩ := hinv
  refine ⟨?_, ?_, ?_, hc⟩
  · intro i
    show (mset r.stations s slot' i).isSome ↔ _
    by_cases hi : i = s
    · subst hi
      rw [mset_self]
      simpa using (hk i).mp (by simp [hs])
    · rw [mset_ne _ _ _ _ hi]
      exact hk i
  · intro c s'
    show r.bindings c = some s' ↔
      ∃ sl, mset r.stations s slot' s' = some sl ∧ sl.ownerClientId = some c
    by_cases hi : s' = s
    · subst hi
      constructor
      · intro hbc
        obtain ⟨sl, hsl, hos⟩ := (hb c s').mp hbc
        rw [hs] at hsl
        cases hsl
        exact ⟨slot', by rw [mset_self], by rw [ho]; exact hos⟩
      · rintro ⟨sl, hsl, hos⟩
        rw [mset_self] at hsl
        cases hsl
        rw [ho] at hos
        exact (hb c s').mpr ⟨slot, hs, hos⟩
    · rw [show mset r.stations s slot' s' = r.stations s' from mset_ne _ _ _ _ hi]
      exact hb c s'
  · intro i sl hsl
    have hsl' : mset r.stations s slot' i = some sl := hsl
    by_cases hi : i = s
    · subst hi
      rw [mset_self] at hsl'
      cases hsl'
      rw [ho]
      exact hn i slot hs
    · rw [mset_ne _ _ _ _ hi] at hsl'
      exact hn i sl hsl'

/-- Clearing an owned slot and deleting its owner's binding keeps the
invariant. -/
theorem inv_release_slot (r : Room) (c : ClientId) (sid : Nat)
    (slot : StationSlot) (hinv : Inv r) (hs : r.stations sid = some slot)
    (ho : slot.ownerClientId = some c) :
    Inv { r with
      stations := mset r.stations sid
        { slot with ownerClientId := none, ready := false, connected := false },
      bindings := mdel r.bindings c } := by
  obtain ⟨hk, hb, hn, hc⟩ := hinv
  refine ⟨?_, ?_, ?_, hc⟩
  · intro i
    show (mset r.stations sid _ i).isSome ↔ _
    by_cases hi : i = sid
    · subst hi
      rw [mset_self]
      simpa using (hk i).mp (by simp [hs])
    · rw [mset_ne _ _ _ _ hi]
      exact hk i
  · intro c' s'
    show mdel r.bindings c c' = some s' ↔
      ∃ sl, mset r.stations sid _ s' = some sl ∧ sl.ownerClientId = some c'
    by_cases hcc : c' = c
    · subst hcc
      rw [mdel_self]
      constructor
      · intro h; cases h
      · rintro ⟨sl, hsl, hos⟩
        by_cases hi : s' = sid
        · subst hi
          rw [mset_self] at hsl
          cases hsl
          cases hos
        · rw [mset_ne _ _ _ _ hi] at hsl
          have hbc : r.bindings c' = some s' := (hb c' s').mpr ⟨sl, hsl, hos⟩
          have hbc2 : r.bindings c' = some sid := (hb c' sid).mpr ⟨slot, hs, ho⟩
          rw [hbc] at hbc2
          cases hbc2
          exact absurd rfl hi
    · rw [mdel_ne _ _ _ hcc]
      by_cases hi : s' = sid
      · subst hi
        constructor
        · intro hbc
          obtain ⟨sl, hsl, hos⟩ := (hb c' s').mp hbc
          rw [hs] at hsl
          cases hsl
          rw [ho] at hos
          cases hos
          exact absurd rfl hcc
        · rintro ⟨sl, hsl, hos⟩
          rw [mset_self] at hsl
          cases hsl
          cases hos
      · rw [show mset r.stations sid _ s' = r.stations s' from mset_ne _ _ _ _ hi]
        exact hb c' s'
  · intro i sl hsl
    have hsl' : mset r.stations sid
        ({ slot with ownerClientId := none, ready := false,
                     connected := false }) i = some sl := hsl
    by_cases hi : i = sid
    · subst hi
      rw [mset_self] at hsl'
      cases hsl'
      intro h
      cases h
    · rw [mset_ne _ _ _ _ hi] at hsl'
      exact hn i sl hsl'

theorem inv_setReady (r : Room) (c : ClientId) (b : Bool) (r' : Room)
    (hinv : Inv r) (h : setReady r c b = .ok r') : Inv r' := by
  unfold setReady at h
  dsimp only at h
  split at h
  · cases h; exact hinv
  · cases hbs : r.bindings c with
    | none => rw [hbs] at h; dsimp only at h; cases h; exact hinv
    | some sid =>
      rw [hbs] at h
      dsimp only at h
      cases hst : r.stations sid with
      | none => rw [hst] at h; dsimp only at h; cases h
      | some slot =>
        rw [hst] at h
        dsimp only at h
        cases h
        exact inv_update_same_owner r sid slot _ hinv hst rfl

theorem inv_startRound (r : Room) (now : Int) (r' : Room) (hinv : Inv r)
    (h : startRound r now = .ok r') : Inv r' := by
  unfold startRound at h
  split at h
  · cases h
  · split at h
    · cases h
    · cases h
      exact inv_congr r _ rfl rfl rfl hinv

theorem inv_stopRound (r : Room) (now : Int) (r' : Room) (hinv : Inv r)
    (h : stopRound r now = .ok r') : Inv r' := by
  unfold stopRound at h
  split at h
  · cases h
  · cases h
    exact inv_congr r _ rfl rfl rfl hinv

theorem inv_resumeRound (r : Room) (now : Int) (r' : Room) (hinv : Inv r)
    (h : resumeRound r now = .ok r') : Inv r' := by
  unfold resumeRound at h
  dsimp only at h
  split at h
  · cases h
  · split at h
    · cases h
    · cases h
      exact inv_congr r _ rfl rfl rfl hinv

theorem inv_tick (r : Room) (t : Int) (hinv : Inv r) : Inv (tick r t).1 := by
  unfold tick
  split
  · exact hinv
  · split
    · exact hinv
    · dsimp only
      split
      · exact inv_congr r _ rfl rfl rfl hinv
      · exact inv_congr r _ rfl rfl rfl hinv

/-- Slots above the tail scan's stopping point all fail the keep test. -/
theorem tailNewCount_above (st : Nat → Option StationSlot) :
    ∀ n i, tailNewCount st n < i → i ≤ n → keepSlot (st i) = false := by
  intro n
  induction n with
  | zero => intro i h1 h2; omega
  | succ m ih =>
    intro i h1 h2
    unfold tailNewCount at h1
    by_cases hkeep : keepSlot (st (m + 1))
    · rw [if_pos hkeep] at h1
      omega
    · rw [if_neg hkeep] at h1
      by_cases hi : i = m + 1
      · subst hi
        exact Bool.eq_false_iff.mpr hkeep
      · exact ih i h1 (by omega)

theorem inv_tailCompact (r : Room) (hinv : Inv r) :
    Inv (tailCompactIfWaiting r) := by
  obtain ⟨hk, hb, hn, hc⟩ := hinv
  unfold tailCompactIfWaiting
  split
  · exact ⟨hk, hb, hn, hc⟩
  · dsimp only
    split
    · rename_i hlt
      have hdel : ∀ i, tailNewCount r.stations r.stationsCount < i →
          i ≤ r.stationsCount → keepSlot (r.stations i) = false :=
        tailNewCount_above r.stations r.stationsCount
      refine ⟨?_, ?_, ?_, by dsimp only; omega⟩
      · intro i
        dsimp only
        by_cases hin : tailNewCount r.stations r.stationsCount + 1 ≤ i ∧
            i ≤ r.stationsCount
        · rw [if_pos hin]
          simp
          omega
        · rw [if_neg hin]
          exact (hk i).trans (by
            have := tailNewCount_le r.stations r.stationsCount
            omega)
      · intro c s
        dsimp only
        by_cases hin : tailNewCount r.stations r.stationsCount + 1 ≤ s ∧
            s ≤ r.stationsCount
        · rw [if_pos hin]
          constructor
          · intro hbc
            obtain ⟨sl, hsl, hos⟩ := (hb c s).mp hbc
            have hkeep := hdel s (by omega) (by omega)
            rw [hsl] at hkeep
            have : strTruthy sl.ownerClientId = false := by
              have hkeep' : (strTruthy sl.ownerClientId || sl.ready ||
                  sl.connected) = false := hkeep
              cases hstr : strTruthy sl.ownerClientId
              · rfl
              · rw [hstr] at hkeep'; simp at hkeep'
            rw [hos] at this
            rcases (strTruthy_false_iff _).mp this with h | h
            · cases h
            · cases h
              exact absurd hos (hn s sl hsl)
          · rintro ⟨sl, hsl, -⟩
            cases hsl
        · rw [if_neg hin]
          exact hb c s
      · intro i sl
        dsimp only
        by_cases hin : tailNewCount r.stations r.stationsCount + 1 ≤ i ∧
            i ≤ r.stationsCount
        · rw [if_pos hin]
          intro h; cases h
        · rw [if_neg hin]
          exact hn i sl
    · exact ⟨hk, hb, hn, hc⟩

/-- Clearing every ready flag keeps the invariant. -/
theorem inv_clearAllReady (r : Room) (hinv : Inv r) :
    Inv { r with stations := clearAllReady r.stations } := by
  obtain ⟨hk, hb, hn, hc⟩ := hinv
  refine ⟨?_, ?_, ?_, hc⟩
  · intro i
    show ((r.stations i).map _).isSome ↔ _
    rw [Option.isSome_map']
    exact hk i
  · intro c s
    constructor
    · intro hbc
      obtain ⟨sl, hsl, hos⟩ := (hb c s).mp hbc
      refine ⟨{ sl with ready := false }, ?_, hos⟩
      show (r.stations s).map _ = _
      rw [hsl, Option.map_some']
    · rintro ⟨sl, hsl, hos⟩
      have hsl' : (r.stations s).map
          (fun s0 => { s0 with ready := false }) = some sl := hsl
      cases hss : r.stations s with
      | none => rw [hss] at hsl'; cases hsl'
      | some sl0 =>
        rw [hss, Option.map_some'] at hsl'
        cases hsl'
        exact (hb c s).mpr ⟨sl0, hss, hos⟩
  · intro i sl hsl
    have hsl' : (r.stations i).map
        (fun s0 => { s0 with ready := false }) = some sl := hsl
    cases hss : r.stations i with
    | none => rw [hss] at hsl'; cases hsl'
    | some sl0 =>
      rw [hss, Option.map_some'] at hsl'
      cases hsl'
      exact hn i sl0 hss

theorem inv_maybeApply (r : Room) (hinv : Inv r) :
    Inv (maybeApplyPendingCompaction r) := by
  unfold maybeApplyPendingCompaction
  split
  · exact hinv
  · split
    · exact hinv
    · exact inv_congr (tailCompactIfWaiting r) _ rfl rfl rfl
        (inv_tailCompact r hinv)

theorem inv_resetToWaiting (r : Room) (hinv : Inv r) :
    Inv (resetToWaiting r) := by
  unfold resetToWaiting
  apply inv_maybeApply
  exact inv_congr { r with stations := clearAllReady r.stations } _ rfl rfl rfl
    (inv_clearAllReady r hinv)

/-- Computation of `claimStation` when the client's previous binding is
released first. -/
theorem claimStation_eq_release (r : Room) (c : ClientId) (sid pn : Nat)
    (slot pslot : StationSlot)
    (hrange : ¬(sid < 1 ∨ sid > r.stationsCount))
    (hst : r.stations sid = some slot)
    (htaken : ¬(strTruthy slot.ownerClientId ∧ slot.ownerClientId ≠ some c))
    (hpn : r.bindings c = some pn) (hpn0 : pn ≠ 0) (hpne : pn ≠ sid)
    (hps : r.stations pn = some pslot) :
    claimStation r c sid = .ok
      { r with
        stations := mset (mset r.stations pn
          ({ pslot with ownerClientId := none, ready := false,
                        connected := false })) sid
          ({ slot with ownerClientId := some c, connected := true }),
        bindings := mset r.bindings c sid } := by
  unfold claimStation
  rw [if_neg hrange, hst]
  try dsimp only
  rw [if_neg htaken, hpn]
  try dsimp only
  rw [if_pos ⟨by rw [natTruthy_iff]; exact ⟨pn, rfl, hpn0⟩, by simp [hpne]⟩]
  try dsimp only
  rw [hps]

/-- Computation of `claimStation` when no previous slot is released. -/
theorem claimStation_eq_noRelease (r : Room) (c : ClientId) (sid : Nat)
    (slot : StationSlot)
    (hrange : ¬(sid < 1 ∨ sid > r.stationsCount))
    (hst : r.stations sid = some slot)
    (htaken : ¬(strTruthy slot.ownerClientId ∧ slot.ownerClientId ≠ some c))
    (hnoprev : ¬(natTruthy (r.bindings c) ∧ r.bindings c ≠ some sid)) :
    claimStation r c sid = .ok
      { r with
        stations := mset r.stations sid
          ({ slot with ownerClientId := some c, connected := true }),
        bindings := mset r.bindings c sid } := by
  unfold claimStation
  rw [if_neg hrange, hst]
  try dsimp only
  rw [if_neg htaken]
  try dsimp only
  rw [if_neg hnoprev]

theorem inv_claim_noRelease (r : Room) (c : ClientId) (sid : Nat)
    (slot : StationSlot) (hinv : Inv r) (hcne : c ≠ "")
    (hst : r.stations sid = some slot)
    (howner : slot.ownerClientId = none ∨ slot.ownerClientId = some c)
    (hbindc : r.bindings c = none ∨ r.bindings c = some sid) :
    Inv { r with
      stations := mset r.stations sid
        ({ slot with ownerClientId := some c, connected := true }),
      bindings := mset r.bindings c sid } := by
  obtain ⟨hk, hb, hn, hcnt⟩ := hinv
  refine ⟨?_, ?_, ?_, hcnt⟩
  · intro i
    show (mset r.stations sid _ i).isSome ↔ _
    by_cases hi : i = sid
    · subst hi
      rw [mset_self]
      simpa using (hk i).mp (by simp [hst])
    · rw [mset_ne _ _ _ _ hi]
      exact hk i
  · intro c' s'
    show mset r.bindings c sid c' = some s' ↔
      ∃ sl, mset r.stations sid _ s' = some sl ∧ sl.ownerClientId = some c'
    by_cases hcc : c' = c
    · subst hcc
      rw [mset_self]
      by_cases hs' : s' = sid
      · subst hs'
        simp only [Option.some.injEq]
        constructor
        · intro _
          exact ⟨_, by rw [mset_self], rfl⟩
        · intro _; trivial
      · constructor
        · intro he
          cases he
          exact absurd rfl hs'
        · rintro ⟨sl, hsl, hos⟩
          rw [mset_ne _ _ _ _ hs'] at hsl
          have := (hb c' s').mpr ⟨sl, hsl, hos⟩
          rcases hbindc with hh | hh <;> rw [hh] at this
          · cases this
          · cases this
            exact absurd rfl hs'
    · rw [mset_ne _ _ _ _ hcc]
      by_cases hs' : s' = sid
      · subst hs'
        constructor
        · intro hbc
          obtain ⟨sl, hsl, hos⟩ := (hb c' s').mp hbc
          rw [hst] at hsl
          cases hsl
          rcases howner with hh | hh <;> rw [hh] at hos
          · cases hos
          · cases hos
            exact absurd rfl hcc
        · rintro ⟨sl, hsl, hos⟩
          rw [mset_self] at hsl
          cases hsl
          cases hos
          exact absurd rfl hcc
      · rw [show mset r.stations sid _ s' = r.stations s' from
            mset_ne _ _ _ _ hs']
        exact hb c' s'
  · intro i sl hsl
    have hsl' : mset r.stations sid
        ({ slot with ownerClientId := some c, connected := true }) i =
        some sl := hsl
    by_cases hi : i = sid
    · subst hi
      rw [mset_self] at hsl'
      cases hsl'
      simpa using hcne
    · rw [mset_ne _ _ _ _ hi] at hsl'
      exact hn i sl hsl'

theorem inv_claim_release (r : Room) (c : ClientId) (sid pn : Nat)
    (slot pslot : StationSlot) (hinv : Inv r) (hcne : c ≠ "")
    (hst : r.stations sid = some slot)
    (howner : slot.ownerClientId = none ∨ slot.ownerClientId = some c)
    (hps : r.stations pn = some pslot) (hpo : pslot.ownerClientId = some c)
    (hbind : r.bindings c = some pn) (hpne : pn ≠ sid) :
    Inv { r with
      stations := mset (mset r.stations pn
        ({ pslot with ownerClientId := none, ready := false,
                      connected := false })) sid
        ({ slot with ownerClientId := some c, connected := true }),
      bindings := mset r.bindings c sid } := by
  obtain ⟨hk, hb, hn, hcnt⟩ := hinv
  refine ⟨?_, ?_, ?_, hcnt⟩
  · intro i
    show (mset (mset r.stations pn _) sid _ i).isSome ↔ _
    by_cases hi : i = sid
    · subst hi
      rw [mset_self]
      simpa using (hk i).mp (by simp [hst])
    · rw [mset_ne _ _ _ _ hi]
      by_cases hip : i = pn
      · subst hip
        rw [mset_self]
        simpa using (hk i).mp (by simp [hps])
      · rw [mset_ne _ _ _ _ hip]
        exact hk i
  · intro c' s'
    show mset r.bindings c sid c' = some s' ↔
      ∃ sl, mset (mset r.stations pn _) sid _ s' = some sl ∧
        sl.ownerClientId = some c'
    by_cases hcc : c' = c
    · subst hcc
      rw [mset_self]
      by_cases hs' : s' = sid
      · subst hs'
        simp only [Option.some.injEq]
        constructor
        · intro _
          exact ⟨_, by rw [mset_self], rfl⟩
        · intro _; trivial
      · constructor
        · intro he
          cases he
          exact absurd rfl hs'
        · rintro ⟨sl, hsl, hos⟩
          rw [mset_ne _ _ _ _ hs'] at hsl
          by_cases hsp : s' = pn
          · subst hsp
            rw [mset_self] at hsl
            cases hsl
            cases hos
          · rw [mset_ne _ _ _ _ hsp] at hsl
            have := (hb c' s').mpr ⟨sl, hsl, hos⟩
            rw [hbind] at this
            cases this
            exact absurd rfl hsp
    · rw [mset_ne _ _ _ _ hcc]
      by_cases hs' : s' = sid
      · subst hs'
        constructor
        · intro hbc
          obtain ⟨sl, hsl, hos⟩ := (hb c' s').mp hbc
          rw [hst] at hsl
          cases hsl
          rcases howner with hh | hh <;> rw [hh] at hos
          · cases hos
          · cases hos
            exact absurd rfl hcc
        · rintro ⟨sl, hsl, hos⟩
          rw [mset_self] at hsl
          cases hsl
          cases hos
          exact absurd rfl hcc
      · by_cases hsp : s' = pn
        · subst hsp
          constructor
          · intro hbc
            obtain ⟨sl, hsl, hos⟩ := (hb c' s').mp hbc
            rw [hps] at hsl
            cases hsl
            rw [hpo] at hos
            cases hos
            exact absurd rfl hcc
          · rintro ⟨sl, hsl, hos⟩
            rw [mset_ne _ _ _ _ hs', mset_self] at hsl
            cases hsl
            cases hos
        · rw [show mset (mset r.stations pn _) sid _ s' = r.stations s' from by
            rw [mset_ne _ _ _ _ hs', mset_ne _ _ _ _ hsp]]
          exact hb c' s'
  · intro i sl hsl
    have hsl' : mset (mset r.stations pn
        ({ pslot with ownerClientId := none, ready := false,
                      connected := false })) sid
        ({ slot with ownerClientId := some c, connected := true }) i =
        some sl := hsl
    by_cases hi : i = sid
    · subst hi
      rw [mset_self] at hsl'
      cases hsl'
      simpa using hcne
    · rw [mset_ne _ _ _ _ hi] at hsl'
      by_cases hip : i = pn
      · subst hip
        rw [mset_self] at hsl'
        cases hsl'
        intro hcontra
        cases hcontra
      · rw [mset_ne _ _ _ _ hip] at hsl'
        exact hn i sl hsl'

theorem inv_claimStation (r : Room) (c : ClientId) (sid : Nat) (r' : Room)
    (hinv : Inv r) (hcne : c ≠ "") (h : claimStation r c sid = .ok r') :
    Inv r' := by
  have hb := hinv.2.1
  have hn := hinv.2.2.1
  by_cases hrange : sid < 1 ∨ sid > r.stationsCount
  · unfold claimStation at h
    rw [if_pos hrange] at h
    cases h
  · cases hst : r.stations sid with
    | none =>
      unfold claimStation at h
      rw [if_neg hrange, hst] at h
      dsimp only at h
      cases h
    | some slot =>
      by_cases htaken : strTruthy slot.ownerClientId ∧
          slot.ownerClientId ≠ some c
      · unfold claimStation at h
        rw [if_neg hrange, hst] at h
        dsimp only at h
        rw [if_pos htaken] at h
        cases h
      · have howner : slot.ownerClientId = none ∨
            slot.ownerClientId = some c := by
          by_cases he : slot.ownerClientId = some c
          · exact Or.inr he
          · have hft : strTruthy slot.ownerClientId = false := by
              cases hft' : strTruthy slot.ownerClientId
              · rfl
              · exact absurd ⟨hft', he⟩ htaken
            rcases (strTruthy_false_iff _).mp hft with hh | hh
            · exact Or.inl hh
            · exact absurd hh (hn sid slot hst)
        by_cases hprev : natTruthy (r.bindings c) ∧ r.bindings c ≠ some sid
        · obtain ⟨pn, hpn, hpn0⟩ := (natTruthy_iff _).mp hprev.1
          have hpne : pn ≠ sid := by
            intro he
            subst he
            exact hprev.2 hpn
          obtain ⟨pslot, hps, hpo⟩ := (hb c pn).mp hpn
          rw [claimStation_eq_release r c sid pn slot pslot hrange hst htaken
            hpn hpn0 hpne hps] at h
          cases h
          exact inv_claim_release r c sid pn slot pslot hinv hcne hst howner
            hps hpo hpn hpne
        · have hbindc : r.bindings c = none ∨ r.bindings c = some sid := by
            by_cases hsid : r.bindings c = some sid
            · exact Or.inr hsid
            · cases hbc : r.bindings c with
              | none => exact Or.inl rfl
              | some m =>
                have hm0 : m = 0 := by
                  by_cases hm : m = 0
                  · exact hm
                  · exact absurd ⟨(natTruthy_iff _).mpr ⟨m, hbc, hm⟩,
                      hbc ▸ fun he => hsid (hbc.trans he)⟩ hprev
                subst hm0
                obtain ⟨sl, hsl, -⟩ := (hb c 0).mp hbc
                have := (hinv.1 0).mp (by simp [hsl])
                omega
          rw [claimStation_eq_noRelease r c sid slot hrange hst htaken
            hprev] at h
          cases h
          exact inv_claim_noRelease r c sid slot hinv hcne hst howner hbindc

theorem updStations_in_some (r : Room) (n i : Nat) (hin : 1 ≤ i ∧ i ≤ n)
    (sl : StationSlot) (hsl : r.stations i = some sl) :
    updStations r n i = some sl := by
  unfold updStations
  rw [if_pos hin,
    show (if n + 1 ≤ i ∧ i ≤ 200 then none else r.stations i) = r.stations i
      from if_neg (by omega), hsl]

theorem updStations_in_none (r : Room) (n i : Nat) (hin : 1 ≤ i ∧ i ≤ n)
    (hsl : r.stations i = none) :
    updStations r n i = some (freshSlot i) := by
  unfold updStations
  rw [if_pos hin,
    show (if n + 1 ≤ i ∧ i ≤ 200 then none else r.stations i) = r.stations i
      from if_neg (by omega), hsl]

theorem updStations_del (r : Room) (n i : Nat) (hout : ¬(1 ≤ i ∧ i ≤ n))
    (hdel : n + 1 ≤ i ∧ i ≤ 200) : updStations r n i = none := by
  unfold updStations
  rw [if_neg hout, if_pos hdel]

theorem updStations_out (r : Room) (n i : Nat) (hout : ¬(1 ≤ i ∧ i ≤ n))
    (hdel : ¬(n + 1 ≤ i ∧ i ≤ 200)) : updStations r n i = r.stations i := by
  unfold updStations
  rw [if_neg hout, if_neg hdel]

theorem inv_updateConfig (r : Room) (n : Nat) (d : Int) (r' : Room)
    (hinv : Inv r) (hn200 : n ≤ 200) (h : updateConfig r n d = .ok r') :
    Inv r' := by
  obtain ⟨hk, hb, hne, hcnt⟩ := hinv
  unfold updateConfig at h
  split at h
  · cases h
  · split at h
    · cases h
    · rename_i hw hany
      cases h
      have hnone : ∀ i, n + 1 ≤ i → i ≤ r.stationsCount → ownerAt r i = none := by
        intro i h1 h2
        have hfree : strTruthy (ownerAt r i) = false := by
          cases hft : strTruthy (ownerAt r i)
          · rfl
          · exact absurd ((claimedAbove_iff r n).mpr ⟨i, h1, h2, hft⟩) hany
        rcases (strTruthy_false_iff _).mp hfree with hh | hh
        · exact hh
        · obtain ⟨sl, hsl, hos⟩ := (ownerAt_some_iff r i "").mp hh
          exact absurd hos (hne i sl hsl)
      refine ⟨?_, ?_, ?_, hn200⟩
      · intro i
        show (updStations r n i).isSome ↔ 1 ≤ i ∧ i ≤ n
        by_cases hin : 1 ≤ i ∧ i ≤ n
        · cases hrs : r.stations i with
          | none => rw [updStations_in_none r n i hin hrs]; simpa using hin
          | some sl => rw [updStations_in_some r n i hin sl hrs]; simpa using hin
        · by_cases hdel : n + 1 ≤ i ∧ i ≤ 200
          · rw [updStations_del r n i hin hdel]
            simpa using hin
          · rw [updStations_out r n i hin hdel]
            exact (hk i).trans (by omega)
      · intro c s
        show r.bindings c = some s ↔
          ∃ sl, updStations r n s = some sl ∧ sl.ownerClientId = some c
        constructor
        · intro hbc
          obtain ⟨sl, hsl, hos⟩ := (hb c s).mp hbc
          have hrange : 1 ≤ s ∧ s ≤ r.stationsCount := (hk s).mp (by simp [hsl])
          by_cases hsn : s ≤ n
          · exact ⟨sl, updStations_in_some r n s ⟨hrange.1, hsn⟩ sl hsl, hos⟩
          · have h0 := hnone s (by omega) hrange.2
            rw [ownerAt_eq] at h0
            unfold slotAtD at h0
            rw [hsl] at h0
            simp at h0
            rw [h0] at hos
            cases hos
        · rintro ⟨sl, hsl, hos⟩
          by_cases hin : 1 ≤ s ∧ s ≤ n
          · cases hrs : r.stations s with
            | none =>
              rw [updStations_in_none r n s hin hrs] at hsl
              cases hsl
              cases hos
            | some sl0 =>
              rw [updStations_in_some r n s hin sl0 hrs] at hsl
              cases hsl
              exact (hb c s).mpr ⟨sl, hrs, hos⟩
          · by_cases hdel : n + 1 ≤ s ∧ s ≤ 200
            · rw [updStations_del r n s hin hdel] at hsl
              cases hsl
            · rw [updStations_out r n s hin hdel] at hsl
              exact (hb c s).mpr ⟨sl, hsl, hos⟩
      · intro i sl hsl
        have hsl' : updStations r n i = some sl := hsl
        by_cases hin : 1 ≤ i ∧ i ≤ n
        · cases hrs : r.stations i with
          | none =>
            rw [updStations_in_none r n i hin hrs] at hsl'
            cases hsl'
            intro hcontra
            cases hcontra
          | some sl0 =>
            rw [updStations_in_some r n i hin sl0 hrs] at hsl'
            cases hsl'
            exact hne i sl hrs
        · by_cases hdel : n + 1 ≤ i ∧ i ≤ 200
          · rw [updStations_del r n i hin hdel] at hsl'
            cases hsl'
          · rw [updStations_out r n i hin hdel] at hsl'
            exact hne i sl hsl'

theorem inv_renumber (r : Room) (k : Nat) (hinv : Inv r)
    (hun : strTruthy (ownerAt r k) = false) :
    Inv (renumberCompactIfWaiting r k).1 := by
  by_cases hw : r.state = .WAITING
  · by_cases hkrange : k < 1 ∨ k > r.stationsCount
    · unfold renumberCompactIfWaiting
      rw [if_neg (by simp [hw]), if_pos hkrange]
      exact hinv
    · have hk1 : 1 ≤ k := by omega
      have hkc : k ≤ r.stationsCount := by omega
      obtain ⟨q1, q2, q3, q4, q5, q6, q7, q8, q9⟩ :=
        renumber_spec r k hinv hw hk1 hkc
      obtain ⟨hk, hb, hne, hcnt⟩ := hinv
      have hkn : ownerAt r k = none := by
        rcases (strTruthy_false_iff _).mp hun with hh | hh
        · exact hh
        · obtain ⟨sl, hsl, hos⟩ := (ownerAt_some_iff r k "").mp hh
          exact absurd hos (hne k sl hsl)
      refine ⟨?_, ?_, ?_, by rw [q1]; omega⟩
      · intro i
        rw [q1]
        by_cases hik : i < k
        · rw [q5 i hik]
          exact (hk i).trans (by omega)
        · by_cases hic : i < r.stationsCount
          · rw [q3 i (by omega) hic]
            simp
            omega
          · by_cases hie : i = r.stationsCount
            · subst hie
              rw [q4]
              simp
              omega
            · rw [q6 i (by omega)]
              simp
              omega
      · intro c s
        by_cases hcown : ∃ i0, k ≤ i0 ∧ i0 < r.stationsCount ∧
            ownerAt r (i0 + 1) = some c
        · obtain ⟨i0, hi01, hi02, hio⟩ := hcown
          rw [q7 c i0 hi01 hi02 hio]
          constructor
          · intro he
            cases he
            refine ⟨shiftedSlot r s, q3 s hi01 hi02, ?_⟩
            show (slotAtD r (s + 1)).ownerClientId = some c
            rw [← ownerAt_eq]
            exact hio
          · rintro ⟨sl, hsl, hos⟩
            by_cases hsk : s < k
            · rw [q5 s hsk] at hsl
              have hb1 : r.bindings c = some s := (hb c s).mpr ⟨sl, hsl, hos⟩
              obtain ⟨sl0, hsl0, hos0⟩ := (ownerAt_some_iff r (i0 + 1) c).mp hio
              have hb2 : r.bindings c = some (i0 + 1) :=
                (hb c (i0 + 1)).mpr ⟨sl0, hsl0, hos0⟩
              rw [hb1] at hb2
              injection hb2 with hb3
              omega
            · by_cases hsc : s < r.stationsCount
              · rw [q3 s (by omega) hsc] at hsl
                cases hsl
                have hos' : ownerAt r (s + 1) = some c := by
                  rw [ownerAt_eq]
                  exact hos
                obtain ⟨sl1, hsl1, hos1⟩ :=
                  (ownerAt_some_iff r (s + 1) c).mp hos'
                obtain ⟨sl0, hsl0, hos0⟩ :=
                  (ownerAt_some_iff r (i0 + 1) c).mp hio
                have hb1 : r.bindings c = some (s + 1) :=
                  (hb c (s + 1)).mpr ⟨sl1, hsl1, hos1⟩
                have hb2 : r.bindings c = some (i0 + 1) :=
                  (hb c (i0 + 1)).mpr ⟨sl0, hsl0, hos0⟩
                rw [hb1] at hb2
                injection hb2 with hb3
                have : s = i0 := by omega
                subst this
                rfl
              · by_cases hse : s = r.stationsCount
                · subst hse
                  rw [q4] at hsl
                  cases hsl
                · rw [q6 s (by omega)] at hsl
                  cases hsl
        · rw [q8 c (fun i h1 h2 ho => hcown ⟨i - 1, by omega, by omega, by
            have he : i - 1 + 1 = i := by omega
            rw [he]
            exact ho⟩)]
          constructor
          · intro hbcs
            obtain ⟨sl, hsl, hos⟩ := (hb c s).mp hbcs
            have hrange : 1 ≤ s ∧ s ≤ r.stationsCount :=
              (hk s).mp (by simp [hsl])
            by_cases hsk : s < k
            · exact ⟨sl, by rw [q5 s hsk]; exact hsl, hos⟩
            · exfalso
              by_cases hse : s = k
              · subst hse
                rw [ownerAt_eq] at hkn
                unfold slotAtD at hkn
                rw [hsl] at hkn
                simp at hkn
                rw [hkn] at hos
                cases hos
              · exact hcown ⟨s - 1, by omega, by omega, by
                  have he : s - 1 + 1 = s := by omega
                  rw [he, ownerAt_eq]
                  unfold slotAtD
                  rw [hsl]
                  exact hos⟩
          · rintro ⟨sl, hsl, hos⟩
            by_cases hsk : s < k
            · rw [q5 s hsk] at hsl
              exact (hb c s).mpr ⟨sl, hsl, hos⟩
            · exfalso
              by_cases hsc : s < r.stationsCount
              · rw [q3 s (by omega) hsc] at hsl
                cases hsl
                exact hcown ⟨s, by omega, hsc, by rw [ownerAt_eq]; exact hos⟩
              · by_cases hse : s = r.stationsCount
                · subst hse
                  rw [q4] at hsl
                  cases hsl
                · rw [q6 s (by omega)] at hsl
                  cases hsl
      · intro i sl hsl
        by_cases hik : i < k
        · rw [q5 i hik] at hsl
          exact hne i sl hsl
        · by_cases hic : i < r.stationsCount
          · rw [q3 i (by omega) hic] at hsl
            cases hsl
            intro hcontra
            have hco : ownerAt r (i + 1) = some "" := by
              rw [ownerAt_eq]
              exact hcontra
            obtain ⟨sl1, hsl1, hos1⟩ := (ownerAt_some_iff r (i + 1) "").mp hco
            exact hne (i + 1) sl1 hsl1 hos1
          · by_cases hie : i = r.stationsCount
            · subst hie
              rw [q4] at hsl
              cases hsl
            · rw [q6 i (by omega)] at hsl
              cases hsl
  · unfold renumberCompactIfWaiting
    rw [if_pos (by simp [hw])]
    exact hinv

theorem inv_removeStation (r : Room) (sid : Nat)
    (out : Room × List Renum × Bool) (hinv : Inv r)
    (hun : strTruthy (ownerAt r sid) = false)
    (h : removeStation r sid = .ok out) : Inv out.1 := by
  unfold removeStation at h
  split at h
  · cases h
  · split at h
    · cases h
    · rename_i slot hst
      split at h
      · cases h
        have hno : slot.ownerClientId = none := by
          rw [ownerAt_eq] at hun
          unfold slotAtD at hun
          rw [hst] at hun
          rcases (strTruthy_false_iff _).mp hun with hh | hh
          · exact hh
          · exact absurd hh (hinv.2.2.1 sid slot hst)
        have hupd := inv_update_same_owner r sid slot
          ({ slot with ownerClientId := none, ready := false,
                       connected := false }) hinv hst (by rw [hno])
        exact inv_congr _ _ rfl rfl rfl hupd
      · dsimp only at h
        cases h
        exact inv_renumber r sid hinv hun

theorem inv_stationLeave (r : Room) (c : ClientId) (hinv : Inv r) :
    Inv (stationLeave r c) := by
  unfold stationLeave
  dsimp only
  cases hbc : r.bindings c with
  | none => exact hinv
  | some sid =>
    by_cases hs0 : sid = 0
    · subst hs0
      exact hinv
    · rw [if_neg (by simp [natTruthy, hs0])]
      dsimp only
      cases hst : r.stations sid with
      | none =>
        obtain ⟨sl, hsl, -⟩ := (hinv.2.1 c sid).mp hbc
        rw [hst] at hsl
        cases hsl
      | some slot =>
        dsimp only
        have ho : slot.ownerClientId = some c := by
          obtain ⟨sl, hsl, hos⟩ := (hinv.2.1 c sid).mp hbc
          rw [hst] at hsl
          cases hsl
          exact hos
        have hrel := inv_release_slot r c sid slot hinv hst ho
        split
        · exact inv_congr _ _ rfl rfl rfl hrel
        · exact inv_tailCompact _ hrel

/-- Counterexample to C1 as stated: in the invariant-satisfying WAITING room
`exA1` (slot 1 owned by `"a"`), the controller's removeStation / renumber
compaction of slot 1 never deletes the removed owner's binding: afterwards
`bindings "a" = 1` while slot 1's owner is `none`, so the claimed
`bindings[c]=s ⇔ stations[s].ownerClientId=c` equivalence is violated. -/
theorem renumber_stale_binding_counterexample :
    Inv exA1 ∧ exA1.state = .WAITING
    ∧ strTruthy (ownerAt exA1 1) = true
    ∧ (renumberCompactIfWaiting exA1 1).1.bindings "a" = some 1
    ∧ ownerAt (renumberCompactIfWaiting exA1 1).1 1 = none
    ∧ ¬ BindOk (renumberCompactIfWaiting exA1 1).1 := by
  refine ⟨inv_exA1, rfl, rfl, rfl, rfl, ?_⟩
  intro hbad
  obtain ⟨sl, hsl, hos⟩ := (hbad "a" 1).mp rfl
  rw [show (renumberCompactIfWaiting exA1 1).1.stations 1 =
      some (freshSlot 1) from rfl] at hsl
  cases hsl
  cases hos

/-- C1 (amended): the invariant — `stations` keys are exactly
`{1..stationsCount}`, `bindings[c]=s ⇔ stations[s].ownerClientId=c`, no
empty-string owner, `stationsCount ≤ 200` — is preserved by claim, setReady,
startRound, stopRound, resumeRound, tick, resetToWaiting, updateConfig (for
the schema-bounded `stationsCount ≤ 200`), tail compaction, and station
leave; renumber compaction and the controller's removeStation preserve it
provided the removed slot is unowned — removing an owned slot leaves the
removed client's stale binding (see the counterexample). -/
theorem inv_preservation_spec :
    (∀ (r : Room) (c : ClientId) (sid : Nat) (r' : Room),
        Inv r → c ≠ "" → claimStation r c sid = .ok r' → Inv r')
    ∧ (∀ (r : Room) (c : ClientId) (b : Bool) (r' : Room),
        Inv r → setReady r c b = .ok r' → Inv r')
    ∧ (∀ (r : Room) (now : Int) (r' : Room),
        Inv r → startRound r now = .ok r' → Inv r')
    ∧ (∀ (r : Room) (now : Int) (r' : Room),
        Inv r → stopRound r now = .ok r' → Inv r')
    ∧ (∀ (r : Room) (now : Int) (r' : Room),
        Inv r → resumeRound r now = .ok r' → Inv r')
    ∧ (∀ (r : Room) (t : Int), Inv r → Inv (tick r t).1)
    ∧ (∀ r : Room, Inv r → Inv (resetToWaiting r))
    ∧ (∀ (r : Room) (n : Nat) (d : Int) (r' : Room),
        Inv r → n ≤ 200 → updateConfig r n d = .ok r' → Inv r')
    ∧ (∀ r : Room, Inv r → Inv (tailCompactIfWaiting r))
    ∧ (∀ (r : Room) (k : Nat), Inv r → strTruthy (ownerAt r k) = false →
        Inv (renumberCompactIfWaiting r k).1)
    ∧ (∀ (r : Room) (sid : Nat) (out : Room × List Renum × Bool),
        Inv r → strTruthy (ownerAt r sid) = false →
        removeStation r sid = .ok out → Inv out.1)
    ∧ (∀ (r : Room) (c : ClientId), Inv r → Inv (stationLeave r c)) :=
  ⟨inv_claimStation, inv_setReady, inv_startRound, inv_stopRound,
   inv_resumeRound, inv_tick, inv_resetToWaiting, inv_updateConfig,
   inv_tailCompact, inv_renumber, inv_removeStation, inv_stationLeave⟩

/-- Witness for C1 (amended): the invariant survives a tick on the concrete
running room `exRun`. -/
theorem inv_preservation_spec_witness : Inv (tick exRun 1000).1 :=
  inv_preservation_spec.2.2.2.2.2.1 exRun 1000 inv_exRun

/-! ## Claim C5: renumber compaction shifts, rebinds and reports -/

/-- C5: removing slot `k` of a WAITING room whose slot `k+1` is owned by `X`
shifts every slot `k+1..stationsCount` down one position carrying
owner/ready/connected, rebinds `X` (and every shifted occupant) to its new
id, deletes the top slot, decrements `stationsCount` by exactly one, reports
each `(clientId, oldId, newId)` remap in order, and alters no other client's
binding. -/
theorem renumber_shift_spec (r : Room) (k : Nat) (X : ClientId)
    (s : StationSlot) (hinv : Inv r) (hw : r.state = .WAITING) (hk1 : 1 ≤ k)
    (hs : r.stations (k + 1) = some s) (ho : s.ownerClientId = some X) :
    (renumberCompactIfWaiting r k).1.stationsCount = r.stationsCount - 1
    ∧ (renumberCompactIfWaiting r k).1.bindings X = some k
    ∧ (∀ p, k ≤ p → p < r.stationsCount →
        (renumberCompactIfWaiting r k).1.stations p = some (shiftedSlot r p))
    ∧ (renumberCompactIfWaiting r k).1.stations r.stationsCount = none
    ∧ (∀ p, p < k → (renumberCompactIfWaiting r k).1.stations p = r.stations p)
    ∧ (∀ c i, k ≤ i → i < r.stationsCount → ownerAt r (i + 1) = some c →
        (renumberCompactIfWaiting r k).1.bindings c = some i)
    ∧ (∀ c, (∀ i, k + 1 ≤ i → i ≤ r.stationsCount → ownerAt r i ≠ some c) →
        (renumberCompactIfWaiting r k).1.bindings c = r.bindings c)
    ∧ (renumberCompactIfWaiting r k).2 =
        (List.range' k (r.stationsCount - k)).filterMap (renumEntry r) := by
  have hk1c : k + 1 ≤ r.stationsCount := ((hinv.1 (k + 1)).mp (by simp [hs])).2
  obtain ⟨q1, q2, q3, q4, q5, q6, q7, q8, q9⟩ :=
    renumber_spec r k hinv hw hk1 (by omega)
  have hoX : ownerAt r (k + 1) = some X := by
    unfold ownerAt
    rw [hs]
    exact ho
  exact ⟨q1, q7 X k (Nat.le_refl k) (by omega) hoX, q3, q4, q5, q7, q8, q9⟩

/-- Witness for C5: removing slot 1 of `exW` shifts `"b"` from slot 2 to
slot 1 (concrete room with two claimed slots). -/
theorem renumber_shift_spec_witness :
    (renumberCompactIfWaiting exW 1).1.stationsCount = exW.stationsCount - 1
    ∧ (renumberCompactIfWaiting exW 1).1.bindings "b" = some 1
    ∧ (∀ p, 1 ≤ p → p < exW.stationsCount →
        (renumberCompactIfWaiting exW 1).1.stations p = some (shiftedSlot exW p))
    ∧ (renumberCompactIfWaiting exW 1).1.stations exW.stationsCount = none
    ∧ (∀ p, p < 1 → (renumberCompactIfWaiting exW 1).1.stations p = exW.stations p)
    ∧ (∀ c i, 1 ≤ i → i < exW.stationsCount → ownerAt exW (i + 1) = some c →
        (renumberCompactIfWaiting exW 1).1.bindings c = some i)
    ∧ (∀ c, (∀ i, 1 + 1 ≤ i → i ≤ exW.stationsCount → ownerAt exW i ≠ some c) →
        (renumberCompactIfWaiting exW 1).1.bindings c = exW.bindings c)
    ∧ (renumberCompactIfWaiting exW 1).2 =
        (List.range' 1 (exW.stationsCount - 1)).filterMap (renumEntry exW) :=
  renumber_shift_spec exW 1 "b" slotB inv_exW rfl (Nat.le_refl 1) rfl rfl

/-! ## Claim C7: single active binding per client -/

/-- Counterexample to C7 as stated: the `station:join` auto-bind path is also
a claim operation (cited by the claim), yet it does not release a previously
owned slot: starting from the invariant-satisfying room `exA1` where `"a"`
owns slot 1, an explicit join to free slot 2 succeeds and leaves `"a"` owning
both slots, with the binding pointing at slot 2. -/
theorem join_no_release_counterexample :
    Inv exA1
    ∧ exA1.bindings "a" = some 1
    ∧ ∃ r', stationJoin exA1 "a" (some 2) 0 = .ok r'
        ∧ ownerAt r' 1 = some "a" ∧ ownerAt r' 2 = some "a"
        ∧ r'.bindings "a" = some 2 :=
  ⟨inv_exA1, rfl, _, rfl, rfl, rfl, rfl⟩

/-- C7 (amended): `claimStation` behaves exactly as claimed — a slot owned by
a different (truthy) client is rejected with `E_STATION_TAKEN` and nothing
changes; a successful claim by a client who owned a different slot releases
that slot (owner/ready/connected cleared), records the new claim, updates the
binding, and leaves each client owning at most one station.  The
`station:join` auto-bind also rejects foreign slots with `E_STATION_TAKEN`,
but (unlike `claimStation`) it does not release a previously owned slot
(see the counterexample). -/
theorem claim_single_binding_spec :
    (∀ (r : Room) (c : ClientId) (sid : Nat) (slot : StationSlot),
        r.stations sid = some slot → 1 ≤ sid → sid ≤ r.stationsCount →
        strTruthy slot.ownerClientId = true → slot.ownerClientId ≠ some c →
        claimStation r c sid = .error .stationTaken)
    ∧ (∀ (r : Room) (c : ClientId) (sid pn : Nat)
        (slot pslot : StationSlot),
        Inv r → c ≠ "" →
        r.stations sid = some slot →
        (slot.ownerClientId = none ∨ slot.ownerClientId = some c) →
        r.bindings c = some pn → pn ≠ sid →
        r.stations pn = some pslot →
        ∃ r', claimStation r c sid = .ok r'
          ∧ r'.stations pn = some { pslot with ownerClientId := none, ready := false, connected := false }
          ∧ r'.bindings c = some sid
          ∧ ownerAt r' sid = some c
          ∧ (∀ s1 s2 sl1 sl2, r'.stations s1 = some sl1 →
              sl1.ownerClientId = some c → r'.stations s2 = some sl2 →
              sl2.ownerClientId = some c → s1 = s2))
    ∧ (∀ (r : Room) (c : ClientId) (tid : Nat) (slot : StationSlot)
        (now : Int), 1 ≤ tid →
        r.stations tid = some slot →
        strTruthy slot.ownerClientId = true → slot.ownerClientId ≠ some c →
        stationJoin r c (some tid) now = .error .stationTaken) := by
  refine ⟨?_, ?_, ?_⟩
  · intro r c sid slot hst h1 h2 htr hne
    unfold claimStation
    rw [if_neg (by omega), hst]
    dsimp only
    rw [if_pos ⟨htr, hne⟩]
  · intro r c sid pn slot pslot hinv hcne hst howner hbind hpne hps
    have hrange : ¬(sid < 1 ∨ sid > r.stationsCount) := by
      have := (hinv.1 sid).mp (by simp [hst])
      omega
    have hpn0 : pn ≠ 0 := by
      have := (hinv.1 pn).mp (by simp [hps])
      omega
    have hpo : pslot.ownerClientId = some c := by
      obtain ⟨sl, hsl, hos⟩ := (hinv.2.1 c pn).mp hbind
      rw [hps] at hsl
      cases hsl
      exact hos
    have htaken : ¬(strTruthy slot.ownerClientId ∧
        slot.ownerClientId ≠ some c) := by
      rintro ⟨htr, hneq⟩
      rcases howner with hh | hh
      · rw [hh] at htr; cases htr
      · exact hneq hh
    have hcomp := claimStation_eq_release r c sid pn slot pslot hrange hst
      htaken hbind hpn0 hpne hps
    have hinv' : Inv { r with
        stations := mset (mset r.stations pn
          ({ pslot with ownerClientId := none, ready := false,
                        connected := false })) sid
          ({ slot with ownerClientId := some c, connected := true }),
        bindings := mset r.bindings c sid } :=
      inv_claim_release r c sid pn slot pslot hinv hcne hst howner hps hpo
        hbind hpne
    refine ⟨_, hcomp, ?_, ?_, ?_, ?_⟩
    · show mset (mset r.stations pn _) sid _ pn = _
      rw [mset_ne _ _ _ _ hpne, mset_self]
    · show mset r.bindings c sid c = some sid
      rw [mset_self]
    · show ownerAt _ sid = some c
      unfold ownerAt
      dsimp only
      rw [mset_self]
    · intro s1 s2 sl1 sl2 hs1 ho1 hs2 ho2
      exact hinv'.owner_unique hs1 ho1 hs2 ho2
  · intro r c tid slot now h1 hst htr hne
    unfold stationJoin
    dsimp only
    rw [show (some tid).orElse (fun _ => r.bindings c) = some tid from rfl]
    rw [if_neg (by simp [natTruthy]; omega)]
    dsimp only
    rw [hst]
    dsimp only
    rw [if_pos ⟨htr, hne⟩]

/-- Witness for C7 (amended): in `exW`, client `"a"` (owner of slot 1) is
rejected when claiming `"b"`'s slot 2... and for the release conjunct, a
fresh 2-station room where `"a"` owns slot 1 and then claims slot 2 via
`claimStation`, which releases slot 1. -/
theorem claim_single_binding_spec_witness :
    ∃ r', claimStation exA1 "a" 2 = .ok r'
      ∧ r'.stations 1 = some { id := 1, ownerClientId := none, ready := false, connected := false }
      ∧ r'.bindings "a" = some 2
      ∧ ownerAt r' 2 = some "a"
      ∧ (∀ s1 s2 sl1 sl2, r'.stations s1 = some sl1 →
          sl1.ownerClientId = some "a" → r'.stations s2 = some sl2 →
          sl2.ownerClientId = some "a" → s1 = s2) :=
  claim_single_binding_spec.2.1 exA1 "a" 2 1 (freshSlot 2)
    { id := 1, ownerClientId := some "a", ready := false, connected := true }
    inv_exA1 (by decide) rfl (Or.inl rfl) rfl (by decide) rfl

end STimer
